import Mathlib

/-!
# Verification of the trendFinder story pipeline

Shallow embedding of the trendFinder repository's core logic:

* `src/src/utils/story_processor.py` — `StoryProcessor` (headline cleaning,
  URL normalization, date parsing, relevance filtering, deduplication,
  `process_stories`);
* `src/src/utils/retry_mechanism.py` — `retry_decorator`,
  `is_rate_limit_error`, `is_network_error`, `classify_exception`;
* `src/backup_20250419_052242/crawler.py` — the fetchers' error conversion,
  the result-collection loop of `process_sources`, and the
  semaphore-bounded concurrency of `bounded_scrape_website` /
  `bounded_scrape_twitter`.

Python strings are modelled as `List Char` (`Str`), Python floats as `ℚ`
(exact for the comparisons performed by the code), `datetime` values at
midnight as civil day numbers (`Int`).  Python dicts with optional keys are
modelled as structures with `Option` fields.
-/

namespace TrendFinder

/-- Python strings, modelled as lists of characters. -/
abbrev Str := List Char

/-- Python `str.lower()` (ASCII case folding, which covers all strings the
code and the claims exercise). -/
def lowerL (s : Str) : Str := s.map Char.toLower

/-- The character class of Python's `\s` regex and of `str.strip()`
(ASCII part): space, tab, newline, carriage return, vertical tab, form feed. -/
def pyWS (c : Char) : Bool :=
  c = ' ' || c = '\t' || c = '\n' || c = '\r' || c = '\x0b' || c = '\x0c'

/-- Python's substring test `needle in hay`. -/
def containsSub (needle : Str) : Str → Bool
  | [] => needle.isPrefixOf []
  | c :: rest => needle.isPrefixOf (c :: rest) || containsSub needle rest

/-- Python `str.strip()`: remove leading and trailing whitespace. -/
def stripBoth (s : Str) : Str :=
  ((s.dropWhile pyWS).reverse.dropWhile pyWS).reverse

/-- Helper for `collapseWS`: `inRun` records whether the previous
character was whitespace (so that only the first character of a run emits
a space). -/
def collapseWSAux (inRun : Bool) : Str → Str
  | [] => []
  | c :: rest =>
    if pyWS c then
      if inRun then collapseWSAux true rest
      else ' ' :: collapseWSAux true rest
    else c :: collapseWSAux false rest

/-- `re.sub(r'\s+', ' ', s)`: collapse each maximal whitespace run to a
single space. -/
def collapseWS (s : Str) : Str := collapseWSAux false s

/-- Digits of a decimal literal to a number (Python `int` on a digit run). -/
def natOfDigits (ds : Str) : Nat :=
  ds.foldl (fun a c => a * 10 + (c.toNat - '0'.toNat)) 0

/-! ## difflib.SequenceMatcher

`_is_duplicate` computes
`difflib.SequenceMatcher(None, story_headline, existing_headline).ratio()`.
We embed the Ratcliff/Obershelp algorithm used by `difflib` (with an empty
junk set; the autojunk heuristic only triggers for second arguments of
length ≥ 200 and is not modelled — every headline the comparison sees in
the proofs below is shorter).  `ratio() = 2*M/T` where `M` is the total
size of the matching blocks found by recursive greedy longest-match and
`T` the total length; for `T = 0`, `difflib` returns `1.0`. -/

/-- Length of the longest common prefix of two strings. -/
def lcpLen : Str → Str → Nat
  | a :: as, b :: bs => if a = b then lcpLen as bs + 1 else 0
  | _, _ => 0

/-- Best match over all start positions in `b` for a fixed suffix of `a`:
returns `(size, j)` with maximal `size = lcpLen sa (b.drop j)`, preferring
the smallest `j` on ties (difflib records a new best only on strict
improvement, scanning positions in increasing order). -/
def bestJ (sa : Str) : Str → Nat → Nat × Nat
  | [], j0 => (0, j0)
  | c :: bs, j0 =>
    let here := lcpLen sa (c :: bs)
    let (s', j') := bestJ sa bs (j0 + 1)
    if s' > here then (s', j') else (here, j0)

/-- Best match over all pairs of start positions: returns
`(size, i, j)` with maximal size, preferring smaller `i`, then smaller `j`
— the tie-breaking of `difflib`'s `find_longest_match` with no junk. -/
def bestFrom (b : Str) : Str → Nat → Nat × Nat × Nat
  | [], i0 => (0, i0, 0)
  | c :: as, i0 =>
    let (sj, j) := bestJ (c :: as) b 0
    let (s', i', j') := bestFrom b as (i0 + 1)
    if s' > sj then (s', i', j') else (sj, i0, j)

/-- Total matched size of the matching blocks (fuelled recursion of
`get_matching_blocks`; the initial fuel `a.length + b.length` dominates the
recursion depth, which shrinks the combined length at every level). -/
def matchSumF : Nat → Str → Str → Nat
  | 0, _, _ => 0
  | fuel + 1, a, b =>
    let (size, i, j) := bestFrom b a 0
    if size = 0 then 0
    else
      matchSumF fuel (a.take i) (b.take j) + size +
        matchSumF fuel (a.drop (i + size)) (b.drop (j + size))

/-- Total size of all matching blocks of `SequenceMatcher(None, a, b)`. -/
def matchSum (a b : Str) : Nat := matchSumF (a.length + b.length) a b

/-- `SequenceMatcher(None, a, b).ratio() > t` (the strict comparison used at
`story_processor.py:187`): `2*M/T > t`, i.e. `t.num * T < 2*M * t.den`
(the denominator of a `Rat` is always positive; `ratioGT_iff_q` below
proves the equivalence with the rational comparison, and the float
computation is exact enough that it coincides with the rational one for
all values the code can produce).  For `T = 0`, `ratio()` is `1.0`. -/
def ratioGT (t : ℚ) (a b : Str) : Bool :=
  let T := a.length + b.length
  if T = 0 then decide (t.num < (t.den : Int))
  else decide (t.num * (T : Int) < 2 * (matchSum a b : Int) * (t.den : Int))

/-! ## Dates

`_normalize_date` calls `datetime.strptime` over eight formats in order and
then falls back to relative phrases.  `strptime` is embedded for exactly
those eight formats: `%Y` is four digits, `%m`/`%d` are one or two digits
matching the regex alternations `1[0-2]|0[1-9]|[1-9]` and
`3[01]|[12]\d|0[1-9]|[1-9]`, `%b`/`%B` are (case-insensitive) month names,
a space in the format matches one or more whitespace characters, the whole
input must be consumed, and the `datetime` constructor then validates the
day against the month and the year against `MINYEAR = 1`.  Midnight
datetimes are represented by their civil day number. -/

/-- Days since 1970-01-01 of the civil date `(y, m, d)`
(Howard Hinnant's `days_from_civil`). -/
def daysFromCivil (y : Int) (m d : Nat) : Int :=
  let y' : Int := if m ≤ 2 then y - 1 else y
  let era : Int := Int.fdiv y' 400
  let yoe : Int := y' - era * 400
  let mp : Int := ((m : Int) + 9) % 12
  let doy : Int := Int.fdiv (153 * mp + 2) 5 + (d : Int) - 1
  let doe : Int := yoe * 365 + Int.fdiv yoe 4 - Int.fdiv yoe 100 + doy
  era * 146097 + doe - 719468

/-- Number of days in a month (the check done by the `datetime`
constructor). -/
def daysInMonth (y m : Nat) : Nat :=
  let leap := y % 4 = 0 && (y % 100 != 0 || y % 400 = 0)
  if m = 2 then (if leap then 29 else 28)
  else if m = 4 || m = 6 || m = 9 || m = 11 then 30
  else 31

def isDigitC (c : Char) : Bool := '0' ≤ c ∧ c ≤ '9'

def digitVal (c : Char) : Nat := c.toNat - '0'.toNat

/-- `%Y`: exactly four digits. -/
def parseY4 : Str → Option (Nat × Str)
  | a :: b :: c :: d :: rest =>
    if isDigitC a && isDigitC b && isDigitC c && isDigitC d then
      some (digitVal a * 1000 + digitVal b * 100 + digitVal c * 10 + digitVal d, rest)
    else none
  | _ => none

/-- `%m`: the regex alternation `1[0-2]|0[1-9]|[1-9]`. -/
def parseMon2 : Str → Option (Nat × Str)
  | a :: b :: rest =>
    if a = '1' && ('0' ≤ b && b ≤ '2') then some (10 + digitVal b, rest)
    else if a = '0' && ('1' ≤ b && b ≤ '9') then some (digitVal b, rest)
    else if '1' ≤ a && a ≤ '9' then some (digitVal a, b :: rest)
    else none
  | [a] => if '1' ≤ a && a ≤ '9' then some (digitVal a, []) else none
  | [] => none

/-- `%d`: the regex alternation `3[01]|[12]\d|0[1-9]|[1-9]`. -/
def parseDay2 : Str → Option (Nat × Str)
  | a :: b :: rest =>
    if a = '3' && ('0' ≤ b && b ≤ '1') then some (30 + digitVal b, rest)
    else if ('1' ≤ a && a ≤ '2') && isDigitC b then some (digitVal a * 10 + digitVal b, rest)
    else if a = '0' && ('1' ≤ b && b ≤ '9') then some (digitVal b, rest)
    else if '1' ≤ a && a ≤ '9' then some (digitVal a, b :: rest)
    else none
  | [a] => if '1' ≤ a && a ≤ '9' then some (digitVal a, []) else none
  | [] => none

def monthAbbrevs : List (Str × Nat) :=
  [("jan".toList, 1), ("feb".toList, 2), ("mar".toList, 3), ("apr".toList, 4),
   ("may".toList, 5), ("jun".toList, 6), ("jul".toList, 7), ("aug".toList, 8),
   ("sep".toList, 9), ("oct".toList, 10), ("nov".toList, 11), ("dec".toList, 12)]

def monthFulls : List (Str × Nat) :=
  [("january".toList, 1), ("february".toList, 2), ("march".toList, 3),
   ("april".toList, 4), ("may".toList, 5), ("june".toList, 6),
   ("july".toList, 7), ("august".toList, 8), ("september".toList, 9),
   ("october".toList, 10), ("november".toList, 11), ("december".toList, 12)]

/-- `%b`/`%B`: case-insensitive month-name match. -/
def parseMonName (tbl : List (Str × Nat)) (cs : Str) : Option (Nat × Str) :=
  tbl.findSome? fun (name, n) =>
    if lowerL (cs.take name.length) = name then some (n, cs.drop name.length) else none

inductive FmtTok where
  | y4 | m2 | d2 | monA | monF
  | lit (c : Char)
  | wsp
deriving DecidableEq

/-- Run one `strptime` format over the input, requiring full consumption
and all three of year, month, day to be bound. -/
def runFmtAux : List FmtTok → Str → Option Nat → Option Nat → Option Nat →
    Option (Nat × Nat × Nat)
  | [], cs, some y, some m, some d => if cs = [] then some (y, m, d) else none
  | [], _, _, _, _ => none
  | t :: ts, cs, y, m, d =>
    match t with
    | .y4 => (parseY4 cs).bind fun (v, rest) => runFmtAux ts rest (some v) m d
    | .m2 => (parseMon2 cs).bind fun (v, rest) => runFmtAux ts rest y (some v) d
    | .d2 => (parseDay2 cs).bind fun (v, rest) => runFmtAux ts rest y m (some v)
    | .monA => (parseMonName monthAbbrevs cs).bind fun (v, rest) =>
        runFmtAux ts rest y (some v) d
    | .monF => (parseMonName monthFulls cs).bind fun (v, rest) =>
        runFmtAux ts rest y (some v) d
    | .lit c =>
      match cs with
      | c' :: rest => if c' = c then runFmtAux ts rest y m d else none
      | [] => none
    | .wsp =>
      match cs with
      | c' :: rest =>
        if pyWS c' then runFmtAux ts (rest.dropWhile pyWS) y m d else none
      | [] => none

/-- The eight formats of `_normalize_date`, in source order:
`%Y-%m-%d`, `%Y/%m/%d`, `%m/%d/%Y`, `%d/%m/%Y`, `%b %d, %Y`, `%B %d, %Y`,
`%d %b %Y`, `%d %B %Y`. -/
def dateFormats : List (List FmtTok) :=
  [[.y4, .lit '-', .m2, .lit '-', .d2],
   [.y4, .lit '/', .m2, .lit '/', .d2],
   [.m2, .lit '/', .d2, .lit '/', .y4],
   [.d2, .lit '/', .m2, .lit '/', .y4],
   [.monA, .wsp, .d2, .lit ',', .wsp, .y4],
   [.monF, .wsp, .d2, .lit ',', .wsp, .y4],
   [.d2, .wsp, .monA, .wsp, .y4],
   [.d2, .wsp, .monF, .wsp, .y4]]

/-- Validation performed by the `datetime` constructor after a successful
regex match; yields the civil day number of the parsed midnight. -/
def validateYMD : Nat × Nat × Nat → Option Int
  | (y, m, d) =>
    if 1 ≤ y && y ≤ 9999 && 1 ≤ m && m ≤ 12 && 1 ≤ d && d ≤ daysInMonth y m then
      some (daysFromCivil (y : Int) m d)
    else none

/-- Try the eight absolute formats in order; a format whose regex matches
but whose date is invalid raises `ValueError` and falls through to the
next format, exactly like the `try/except` loop in `_normalize_date`. -/
def tryFormats (s : Str) : Option Int :=
  dateFormats.findSome? fun f => (runFmtAux f s none none none).bind validateYMD

/-- The regex `(\d+)\s+days ago` tried at one start position: greedy
digits, then one or more whitespace, then the literal. -/
def daysAgoAt (l : Str) : Option Nat :=
  let digits := l.takeWhile isDigitC
  if digits = [] then none
  else
    let rest := l.drop digits.length
    let ws := rest.takeWhile pyWS
    if ws = [] then none
    else if "days ago".toList.isPrefixOf (rest.drop ws.length) then
      some (natOfDigits digits)
    else none

/-- `re.search(r'(\d+)\s+days ago', s)`: leftmost match. -/
def daysAgoSearch : Str → Option Nat
  | [] => none
  | c :: rest =>
    match daysAgoAt (c :: rest) with
    | some n => some n
    | none => daysAgoSearch rest

/-- `_normalize_date` (story_processor.py:83-128).  `today` is the midnight
of `datetime.now()` as a civil day number.  A present substring
`"days ago"` without a full regex match raises inside the outer `try` and
yields `None`; any other unmatched string defaults to today. -/
def normalizeDate (today : Int) (s : Str) : Option Int :=
  match tryFormats s with
  | some d => some d
  | none =>
    let low := lowerL s
    if containsSub "today".toList low then some today
    else if containsSub "yesterday".toList low then some (today - 1)
    else if containsSub "days ago".toList low then
      (daysAgoSearch low).map fun n => today - (n : Int)
    else some today

/-! ## URLs

`_normalize_url` (story_processor.py:130-155) uses
`urllib.parse.urlparse`; we embed the parts it reads (scheme, netloc,
path) for inputs that start with `http://` or `https://` — which is
guaranteed by the scheme-prepending first step. -/

/-- Index of the last occurrence of `c`, if any (`str.rfind`). -/
def rfindIdx (c : Char) (l : Str) : Option Nat :=
  match l.reverse.findIdx? (· = c) with
  | some j => some (l.length - 1 - j)
  | none => none

/-- Index of the first occurrence of `c` at position `≥ start`
(`str.find(c, start)`). -/
def findFromIdx (c : Char) (l : Str) (start : Nat) : Option Nat :=
  (((l.drop start).findIdx? (· = c))).map (· + start)

/-- `urlparse`'s `_splitparams`: if the path contains `;`, drop the params
of the last segment (the part from the first `;` at or after the last
`/`; with no `/`, from the first `;`). -/
def stripParamsPy (p : Str) : Str :=
  if p.contains ';' then
    if p.contains '/' then
      match rfindIdx '/' p with
      | some ls =>
        match findFromIdx ';' p ls with
        | some i => p.take i
        | none => p
      | none => p
    else
      match p.findIdx? (· = (';' : Char)) with
      | some i => p.take i
      | none => p
  else p

/-- Split a URL that starts with `http://` or `https://` into its scheme
part (with `://`) and the remainder. -/
def schemeSplit (url : Str) : Str × Str :=
  if "https://".toList.isPrefixOf url then ("https://".toList, url.drop 8)
  else ("http://".toList, url.drop 7)

/-- `_normalize_url`: prepend `https://` when the scheme is missing, keep
scheme + netloc + path, drop params/query/fragment, strip one trailing
slash. -/
def normalizeUrl (url : Str) : Str :=
  let url :=
    if "http://".toList.isPrefixOf url || "https://".toList.isPrefixOf url then url
    else "https://".toList ++ url
  let pr := schemeSplit url
  let netloc := pr.2.takeWhile fun c => ¬(c = '/' || c = '?' || c = '#')
  let afterNetloc := pr.2.drop netloc.length
  let path := afterNetloc.takeWhile fun c => ¬(c = '?' || c = '#')
  let path := stripParamsPy path
  let path := if path.getLast? = some '/' then path.dropLast else path
  pr.1 ++ netloc ++ path

/-- `urlparse(link).netloc` for the already-normalized links the processor
stores (they always start with `http://` or `https://`). -/
def netlocOf (url : Str) : Str :=
  if "https://".toList.isPrefixOf url then
    (url.drop 8).takeWhile fun c => ¬(c = '/' || c = '?' || c = '#')
  else if "http://".toList.isPrefixOf url then
    (url.drop 7).takeWhile fun c => ¬(c = '/' || c = '?' || c = '#')
  else []

/-! ## Relevance

`_is_relevant` searches the lowercased headline with the compiled regex
`\b(kw1|kw2|...)\b` (IGNORECASE).  Every keyword starts and ends with a
word character, so a match is an occurrence of a keyword with no word
character (`[A-Za-z0-9_]`, ASCII as exercised by the code) adjacent on
either side. -/

def aiKeywords : List Str :=
  ["ai", "artificial intelligence", "machine learning", "ml",
   "deep learning", "neural network", "llm", "large language model",
   "generative ai", "gpt", "chatgpt", "claude", "gemini", "llama",
   "mistral", "transformer", "diffusion", "stable diffusion", "midjourney",
   "openai", "anthropic", "google ai", "microsoft ai", "deepmind",
   "hugging face", "nvidia", "dall-e", "natural language processing",
   "computer vision", "reinforcement learning", "rag", "embeddings",
   "fine-tuning", "prompt engineering", "multimodal", "foundation model"
  ].map String.toList

def isWordChar (c : Char) : Bool := c.isAlphanum || c = '_'

def boundaryOkBefore : Option Char → Bool
  | none => true
  | some c => ¬ isWordChar c

def boundaryOkAfter : Str → Bool
  | [] => true
  | c :: _ => ¬ isWordChar c

/-- `kw` occurs in the string (scanned as suffixes, with the previous
character carried) with word boundaries on both sides. -/
def occursWordAt (kw : Str) : Str → Option Char → Bool
  | [], prev => (kw = []) && boundaryOkBefore prev
  | c :: rest, prev =>
    (kw.isPrefixOf (c :: rest) && boundaryOkBefore prev &&
      boundaryOkAfter ((c :: rest).drop kw.length))
    || occursWordAt kw rest (some c)

/-- `self.ai_pattern.search(headline)` is truthy, for the lowercased
headline. -/
def isRelevantStr (h : Str) : Bool :=
  aiKeywords.any fun kw => occursWordAt kw (lowerL h) none

/-! ## The story processor -/

/-- A scraped story: a Python dict whose keys may be absent.
`process_stories` reads `headline`, `link`, `date_posted` and writes
`source_domain`. -/
structure Story where
  headline : Option Str := none
  link : Option Str := none
  datePosted : Option Str := none
  sourceDomain : Option Str := none
deriving DecidableEq, Repr

/-- The `StoryProcessor` configuration (constructor defaults:
`20, 200, 0.75, 2`). -/
structure ProcCfg where
  minHeadlineLength : Nat
  maxHeadlineLength : Nat
  similarityThreshold : ℚ
  maxDaysOld : Nat
deriving DecidableEq, Repr

/-- The constructor default `similarity_threshold = 0.75`, written as the
literal reduced fraction `3/4` so that it evaluates in the kernel
(`simThreshold75_eq` below checks it equals `3 / 4`). -/
def simThreshold75 : ℚ := ⟨3, 4, by decide, by decide⟩

/-- The singleton `story_processor = StoryProcessor()`. -/
def defaultProc : ProcCfg :=
  { minHeadlineLength := 20, maxHeadlineLength := 200
    similarityThreshold := simThreshold75, maxDaysOld := 2 }

/-- `cleaned[:max-3] + "..."`, with Python slice semantics (a negative
stop index counts from the end). -/
def truncatePy (cl : Str) (maxLen : Nat) : Str :=
  let k : Int := (maxLen : Int) - 3
  (if 0 ≤ k then cl.take k.toNat else cl.take ((cl.length : Int) + k).toNat)
    ++ "...".toList

/-- `_clean_headline`: collapse whitespace, strip each of four leading
prefixes once (in order), truncate with an ellipsis when too long. -/
def cleanHeadline (cfg : ProcCfg) (h : Str) : Str :=
  let cleaned := stripBoth (collapseWS h)
  let cleaned :=
    ["Breaking:", "Just in:", "New:", "Update:"].foldl
      (fun cl p =>
        if p.toList.isPrefixOf cl then stripBoth (cl.drop p.toList.length) else cl)
      cleaned
  if cleaned.length > cfg.maxHeadlineLength then truncatePy cleaned cfg.maxHeadlineLength
  else cleaned

/-- `_is_duplicate`: exact normalized-URL match against any accepted
story, then headline-similarity above the threshold (skipping empty
headlines on either side). -/
def isDup (cfg : ProcCfg) (s : Story) (existing : List Story) : Bool :=
  let storyUrl := normalizeUrl (s.link.getD [])
  if existing.any (fun e => normalizeUrl (e.link.getD []) == storyUrl) then true
  else
    let sh := lowerL (s.headline.getD [])
    if sh = [] then false
    else
      existing.any fun e =>
        let eh := lowerL (e.headline.getD [])
        eh ≠ [] && ratioGT cfg.similarityThreshold sh eh

/-- `_is_relevant` on a story dict. -/
def isRelevant (s : Story) : Bool := isRelevantStr (s.headline.getD [])

/-- `_is_valid_date`: falsy `date_posted` is rejected outright; otherwise
parse and accept iff `(today - date).days <= max_days_old`. -/
def isValidDate (cfg : ProcCfg) (today : Int) (s : Story) : Bool :=
  let ds := s.datePosted.getD []
  if ds = [] then false
  else
    match normalizeDate today ds with
    | none => false
    | some d => today - d ≤ (cfg.maxDaysOld : Int)

/-- In-place headline cleaning (`story['headline'] = _clean_headline(...)`,
only when the key is present). -/
def applyClean (cfg : ProcCfg) (s : Story) : Story :=
  match s.headline with
  | some h => { s with headline := some (cleanHeadline cfg h) }
  | none => s

/-- The min-length rejection, checked only when a headline key exists. -/
def lenFails (cfg : ProcCfg) (s : Story) : Bool :=
  match s.headline with
  | some h => h.length < cfg.minHeadlineLength
  | none => false

/-- In-place link normalization (only when the key is present). -/
def applyNorm (s : Story) : Story :=
  match s.link with
  | some l => { s with link := some (normalizeUrl l) }
  | none => s

/-- `story['source_domain'] = urlparse(story['link']).netloc` (only when a
link is present; the link has been normalized at this point). -/
def attachDomain (s : Story) : Story :=
  match s.link with
  | some l => { s with sourceDomain := some (netlocOf l) }
  | none => s

/-- One iteration of the `process_stories` loop: dedup against the
accepted list, clean, length-check, normalize, relevance, recency, enrich,
append. -/
def step (cfg : ProcCfg) (today : Int) (acc : List Story) (s : Story) :
    List Story :=
  if isDup cfg s acc then acc
  else
    let s := applyClean cfg s
    if lenFails cfg s then acc
    else
      let s := applyNorm s
      if ¬ isRelevant s then acc
      else if ¬ isValidDate cfg today s then acc
      else acc ++ [attachDomain s]

/-- The sort key of the final `processed_stories.sort(...)`:
`_normalize_date(date_posted) or datetime.now()`, scaled by two so that
"now" (strictly after today's midnight) sits between day numbers. -/
def dateKey (today : Int) (s : Story) : Int :=
  match normalizeDate today (s.datePosted.getD []) with
  | some d => 2 * d
  | none => 2 * today + 1

/-- Stable descending insertion: a story goes after every story with a
key `≥` its own — the order produced by Python's stable
`sort(key=..., reverse=True)`. -/
def insertStory (today : Int) (x : Story) : List Story → List Story
  | [] => [x]
  | y :: ys =>
    if dateKey today y < dateKey today x then x :: y :: ys
    else y :: insertStory today x ys

/-- `processed_stories.sort(key=..., reverse=True)` (stable, descending). -/
def sortStories (today : Int) (l : List Story) : List Story :=
  l.foldl (fun acc s => insertStory today s acc) []

/-- `process_stories`: the filtering/dedup fold followed by the stable
descending date sort. -/
def processStories (cfg : ProcCfg) (today : Int) (l : List Story) :
    List Story :=
  sortStories today (l.foldl (step cfg today) [])

/-! ## Error classification (retry_mechanism.py:106-173) -/

inductive ErrKind where
  | rateLimit | network | other
deriving DecidableEq, Repr

/-- The rate-limit indicator substrings, in source order. -/
def rateLimitTerms : List Str :=
  ["rate limit", "too many requests", "429", "throttl", "quota exceeded"
  ].map String.toList

/-- The network indicator substrings, in source order (eight of them,
including `"timed out"`). -/
def networkTerms : List Str :=
  ["connection", "timeout", "timed out", "reset by peer", "network",
   "socket", "dns", "unreachable"].map String.toList

/-- `is_rate_limit_error`: any indicator occurs in `str(error).lower()`. -/
def isRateLimitError (msg : Str) : Bool :=
  rateLimitTerms.any fun t => containsSub t (lowerL msg)

/-- `is_network_error`. -/
def isNetworkError (msg : Str) : Bool :=
  networkTerms.any fun t => containsSub t (lowerL msg)

/-- `classify_exception`, by the kind of exception object it returns.
The returned exception is built from `str(exception)`, so its message is
the original message unchanged. -/
def classifyException (msg : Str) : ErrKind :=
  if isRateLimitError msg then .rateLimit
  else if isNetworkError msg then .network
  else .other

/-! ## The retry decorator (retry_mechanism.py:17-103)

The wrapped operation is modelled as a function from the attempt index to
an outcome; the pseudo-random draws of `random.random()` as a stream of
rationals in `[0, 1)`.  The trace records how many times the operation was
invoked, the sleep durations between attempts, the final outcome, and the
attempt count reported by the final `logger.error` on exhaustion. -/

structure RetryTrace (E A : Type) where
  calls : Nat
  sleeps : List ℚ
  result : Except E A
  exhaustLog : Option Nat

/-- The retry loop from attempt `attempt` with `fuel` retries remaining
(`fuel = maxRetries - attempt`); a failure with fuel left sleeps
`backoff + backoff * jitter * (2*random() - 1)` and recurses. -/
def retryAux (op : Nat → Except E A) (rnd : Nat → ℚ)
    (initialBackoff backoffMultiplier jitter : ℚ) (maxRetries : Nat) :
    Nat → Nat → RetryTrace E A
  | attempt, fuel =>
    match op attempt with
    | .ok a => { calls := 1, sleeps := [], result := .ok a, exhaustLog := none }
    | .error e =>
      match fuel with
      | 0 =>
        { calls := 1, sleeps := [], result := .error e
          exhaustLog := some (maxRetries + 1) }
      | fuel' + 1 =>
        let backoffTime := initialBackoff * backoffMultiplier ^ attempt
        let jitterAmount := backoffTime * jitter * (2 * rnd attempt - 1)
        let sleepTime := backoffTime + jitterAmount
        let t := retryAux op rnd initialBackoff backoffMultiplier jitter
          maxRetries (attempt + 1) fuel'
        { calls := t.calls + 1, sleeps := sleepTime :: t.sleeps
          result := t.result, exhaustLog := t.exhaustLog }

/-- `retry_decorator(...)(op)()`: run the loop from attempt 0 with
`maxRetries` retries remaining. -/
def retryRun (op : Nat → Except E A) (rnd : Nat → ℚ)
    (initialBackoff backoffMultiplier jitter : ℚ) (maxRetries : Nat) :
    RetryTrace E A :=
  retryAux op rnd initialBackoff backoffMultiplier jitter maxRetries 0 maxRetries

/-! ## The crawler (backup_20250419_052242/crawler.py) -/

/-- The dict a fetcher returns: a `stories` key (when present, a list) and
an optional `error` key. -/
structure FetchResult where
  stories : Option (List Story) := none
  error : Option Str := none
deriving DecidableEq

/-- One entry of the `errors` accumulator of `process_sources`. -/
structure ProcessingError where
  source : Str
  error : Str
deriving DecidableEq

/-- What `await future` delivers to the collection loop: either a
`(result, source)` pair, or an exception escaping the task harness. -/
inductive TaskOutcome where
  | done (res : FetchResult) (sourceId : Str)
  | crashed (msg : Str)
deriving DecidableEq

/-- The `asyncio.as_completed` collection loop of `process_sources`
(crawler.py:302-317), over the outcomes in completion order: an `error`
key appends one `ProcessingError`, a `stories` list extends the combined
list (independently of the error), and a harness exception records an
error with source `"unknown"`. -/
def collectStep (acc : List Story × List ProcessingError) (o : TaskOutcome) :
    List Story × List ProcessingError :=
  match o with
  | .done res src =>
    let errs :=
      match res.error with
      | some e => acc.2 ++ [{ source := src, error := e }]
      | none => acc.2
    let sts :=
      match res.stories with
      | some l => acc.1 ++ l
      | none => acc.1
    (sts, errs)
  | .crashed msg =>
    (acc.1, acc.2 ++ [{ source := "unknown".toList, error := msg }])

def collectResults (outcomes : List TaskOutcome) :
    List Story × List ProcessingError :=
  outcomes.foldl collectStep ([], [])

/-- The stories one outcome contributes to the combined raw list. -/
def storiesOf : TaskOutcome → List Story
  | .done res _ => res.stories.getD []
  | .crashed _ => []

/-- The `ProcessingError` one outcome contributes, if any. -/
def errOf : TaskOutcome → Option ProcessingError
  | .done res src => res.error.map fun e => { source := src, error := e }
  | .crashed msg => some { source := "unknown".toList, error := msg }

/-- The body of `scrape_website`'s crawl, as seen from outside: the
`crawler.arun` call either raises or completes with a success flag, an
error message and optionally extracted content. -/
inductive CrawlResult where
  | raised (msg : Str)
  | completed (success : Bool) (errorMessage : Str)
      (extracted : Option (List Story))
deriving DecidableEq

/-- Link absolutization inside `scrape_website`: a truthy relative link is
prefixed by the page URL. -/
def absolutize (url : Str) (s : Story) : Story :=
  match s.link with
  | some l =>
    if l ≠ [] && ¬ ("http".toList.isPrefixOf l) then
      { s with link := some ((url.reverse.dropWhile (· = '/')).reverse
          ++ '/' :: l.dropWhile (· = '/')) }
    else s
  | none => s

/-- `scrape_website` (one attempt, crawler.py:113-147): every exception in
the crawl block is caught and converted into a returned
`{stories: [], error: str(classify_exception(e))}` — and
`str(classify_exception(e))` is `str(e)` itself, whatever the kind. -/
def scrapeWebsite (url : Str) (outcome : CrawlResult) : FetchResult :=
  match outcome with
  | .raised m => { stories := some [], error := some m }
  | .completed false errMsg _ => { stories := some [], error := some errMsg }
  | .completed true _ none => { stories := some [] }
  | .completed true _ (some sts) => { stories := some (sts.map (absolutize url)) }

/-- Python `str.split(c)` (always non-empty; `""` splits to `[""]`). -/
def splitOnChar (c : Char) : Str → List Str
  | [] => [[]]
  | x :: rest =>
    let r := splitOnChar c rest
    if x = c then [] :: r
    else
      match r with
      | h :: t => (x :: h) :: t
      | [] => [[x]]

/-- The request block of `scrape_twitter`, as seen from outside: the
Twitter API call either raises or yields a response with a status code,
a `meta.result_count`, whether the `data` field is a list, and the
tweets as `(text, id)` pairs. -/
inductive RequestResult where
  | raised (msg : Str)
  | response (status : Nat) (resultCount : Nat) (dataIsList : Bool)
      (tweets : List (Str × Str))
deriving DecidableEq

/-- The story built from one tweet (crawler.py:207-213).  The
`source_type: "twitter"` tag the code also sets has no field in `Story`;
no claim reads it. -/
def tweetStory (currentDate : Str) (t : Str × Str) : Story :=
  { headline := some t.1
    link := some ("https://x.com/i/status/".toList ++ t.2)
    datePosted := some currentDate }

/-- `scrape_twitter` (one attempt, crawler.py:149-223): a falsy username
(last `/`-separated component of the URL) returns an error before the
request; inside the `try`, a non-200 status, an empty result count and a
non-list `data` field each return their result, and every exception in
the request block is caught and converted into a returned
`{stories: [], error: str(classify_exception(e))}` — whose message is
`str(e)` itself, whatever the kind. -/
def scrapeTwitter (url : Str) (currentDate : Str) (outcome : RequestResult) :
    FetchResult :=
  let username := ((splitOnChar '/' url).getLast?).getD []
  if username = [] then
    { stories := some [], error := some "Invalid Twitter URL format".toList }
  else
    match outcome with
    | .raised m => { stories := some [], error := some m }
    | .response status resultCount dataIsList tweets =>
      if status ≠ 200 then
        { stories := some []
          error := some ("Twitter API error: ".toList ++ (Nat.repr status).toList) }
      else if resultCount = 0 then { stories := some [] }
      else if ¬ dataIsList then
        { stories := some []
          error := some "Unexpected Twitter API response format".toList }
      else { stories := some (tweets.map (tweetStory currentDate)) }

/-! ## Semaphore-bounded concurrency (crawler.py:263-300)

`process_sources` guards every fetch with
`async with semaphore` where `semaphore = asyncio.Semaphore(max_concurrent)`.
The cooperative scheduler is modelled as a transition system: each task is
waiting, fetching (inside `scrape_website`/`scrape_twitter` while holding a
slot), pacing (the post-fetch `asyncio.sleep`, still holding the slot), or
done; `avail` is the semaphore's internal counter.  Acquisition requires a
positive counter and decrements it; the slot is released when the task
leaves the `async with` block. -/

inductive SrcKind where
  | website | social
deriving DecidableEq, Repr

inductive TaskPhase where
  | waiting | fetching | pacing | taskDone
deriving DecidableEq, Repr

structure OrchTask where
  kind : SrcKind
  phase : TaskPhase
deriving DecidableEq, Repr

structure OrchState where
  avail : Nat
  tasks : List OrchTask
deriving DecidableEq, Repr

/-- The initial state: a full semaphore and every submitted task waiting,
in any submission order of the two kinds. -/
def orchInit (cap : Nat) (kinds : List SrcKind) : OrchState :=
  { avail := cap, tasks := kinds.map fun k => { kind := k, phase := .waiting } }

/-- Scheduler transitions. -/
inductive OrchStep : OrchState → OrchState → Prop
  | acquire (s : OrchState) (i : Nat) (t : OrchTask)
      (ht : s.tasks.get? i = some t) (hw : t.phase = .waiting)
      (ha : 0 < s.avail) :
      OrchStep s { avail := s.avail - 1
                   tasks := s.tasks.set i { kind := t.kind, phase := .fetching } }
  | finishFetch (s : OrchState) (i : Nat) (t : OrchTask)
      (ht : s.tasks.get? i = some t) (hf : t.phase = .fetching) :
      OrchStep s { avail := s.avail
                   tasks := s.tasks.set i { kind := t.kind, phase := .pacing } }
  | release (s : OrchState) (i : Nat) (t : OrchTask)
      (ht : s.tasks.get? i = some t) (hp : t.phase = .pacing) :
      OrchStep s { avail := s.avail + 1
                   tasks := s.tasks.set i { kind := t.kind, phase := .taskDone } }

/-- Reachability from a state by scheduler steps. -/
inductive OrchReach (s0 : OrchState) : OrchState → Prop
  | refl : OrchReach s0 s0
  | tail {s s' : OrchState} : OrchReach s0 s → OrchStep s s' → OrchReach s0 s'

/-- Number of tasks currently in a given phase, across both kinds. -/
def countPhase (p : TaskPhase) (s : OrchState) : Nat :=
  (s.tasks.filter fun t => t.phase = p).length

/-- Tasks currently holding a semaphore slot. -/
def holdingCount (s : OrchState) : Nat :=
  countPhase .fetching s + countPhase .pacing s

/-! ## Derived forms of the `process_stories` loop body

`survives` and `enrichStory` package the non-dedup part of one loop
iteration; `step_eq` below proves them equal to the transcription. -/

/-- A candidate (that is not a duplicate) is kept iff the cleaned headline
is long enough, the story is relevant and the date is recent. -/
def survives (cfg : ProcCfg) (today : Int) (s : Story) : Bool :=
  let s := applyClean cfg s
  if lenFails cfg s then false
  else
    let s := applyNorm s
    if ¬ isRelevant s then false
    else if ¬ isValidDate cfg today s then false
    else true

/-- The in-place mutations applied to a kept story. -/
def enrichStory (cfg : ProcCfg) (s : Story) : Story :=
  attachDomain (applyNorm (applyClean cfg s))

/-! ## Fixedness and separation predicates used by the theorems -/

/-- The story's headline is unchanged by `_clean_headline`. -/
def cleanFixed (cfg : ProcCfg) (s : Story) : Prop :=
  cleanHeadline cfg (s.headline.getD []) = s.headline.getD []

/-- The story's link is unchanged by `_normalize_url` (this forces the
link key to be present, since normalizing the empty string yields
`https://`). -/
def normFixed (s : Story) : Prop :=
  normalizeUrl (s.link.getD []) = s.link.getD []

/-- Invariant of the accepted list under fixed inputs. -/
def storedOK (cfg : ProcCfg) (e : Story) : Prop :=
  cleanFixed cfg e ∧ normFixed e ∧ e.headline.getD [] ≠ []

/-- What the duplicate check guarantees between an earlier accepted story
`a` and a later accepted story `b`: distinct stored links, and the
candidate-versus-existing similarity not above the threshold. -/
def acceptedSeparated (cfg : ProcCfg) (a b : Story) : Prop :=
  a.link ≠ b.link ∧
    ratioGT cfg.similarityThreshold (lowerL (b.headline.getD []))
      (lowerL (a.headline.getD [])) = false

/-- Pairwise non-duplication in both comparison directions. -/
def sepBoth (cfg : ProcCfg) (a b : Story) : Prop :=
  normalizeUrl (a.link.getD []) ≠ normalizeUrl (b.link.getD []) ∧
  ratioGT cfg.similarityThreshold (lowerL (a.headline.getD []))
    (lowerL (b.headline.getD [])) = false ∧
  ratioGT cfg.similarityThreshold (lowerL (b.headline.getD []))
    (lowerL (a.headline.getD [])) = false

instance (cfg : ProcCfg) (s : Story) : Decidable (cleanFixed cfg s) := by
  unfold cleanFixed
  infer_instance

instance (s : Story) : Decidable (normFixed s) := by
  unfold normFixed
  infer_instance

instance (cfg : ProcCfg) (e : Story) : Decidable (storedOK cfg e) := by
  unfold storedOK
  infer_instance

instance (cfg : ProcCfg) (a b : Story) :
    Decidable (acceptedSeparated cfg a b) := by
  unfold acceptedSeparated
  infer_instance

instance (cfg : ProcCfg) (a b : Story) : Decidable (sepBoth cfg a b) := by
  unfold sepBoth
  infer_instance

/-- Conclusion predicates of the output-sanity claim: min headline length
and an `http`/`https` scheme on the stored link. -/
def headlineOK (cfg : ProcCfg) (s : Story) : Prop :=
  ∀ h, s.headline = some h → cfg.minHeadlineLength ≤ h.length

def linkOK (s : Story) : Prop :=
  ∀ u, s.link = some u →
    ("http://".toList.isPrefixOf u || "https://".toList.isPrefixOf u) = true

/-- Descending sortedness by the Python sort key. -/
def sortedDesc (today : Int) (l : List Story) : Prop :=
  List.Pairwise (fun a b => dateKey today b ≤ dateKey today a) l

/-! ## Concrete fixtures for counterexamples and witnesses -/

/-- 2024-06-05, the `today` used by the concrete scenarios. -/
def exToday : Int := daysFromCivil 2024 6 5

def c1a : Story :=
  { headline := some "OpenAI releases new AI model this week".toList
    link := some "https://example.com/a".toList
    datePosted := some "2024-06-05".toList }

/-- Same headline with the single space after "OpenAI" widened to 27
spaces: the raw-versus-cleaned similarity is 76/102 ≤ 0.75, but cleaning
collapses it back to `c1a`'s headline. -/
def c1b : Story :=
  { headline := some ("OpenAI" ++ String.mk (List.replicate 27 ' ')
      ++ "releases new AI model this week").toList
    link := some "https://example.com/b".toList
    datePosted := some "2024-06-05".toList }

def c1outA : Story :=
  { headline := some "OpenAI releases new AI model this week".toList
    link := some "https://example.com/a".toList
    datePosted := some "2024-06-05".toList
    sourceDomain := some "example.com".toList }

def c1outB : Story :=
  { headline := some "OpenAI releases new AI model this week".toList
    link := some "https://example.com/b".toList
    datePosted := some "2024-06-05".toList
    sourceDomain := some "example.com".toList }

/-- A link on which `_normalize_url` is not idempotent:
`/story//` → `/story/` → `/story`. -/
def c4a : Story :=
  { headline := some "OpenAI releases new AI model this week".toList
    link := some "https://example.com/story//".toList
    datePosted := some "2024-06-05".toList }

def c4b : Story :=
  { headline := some "Anthropic ships new Claude coding tools".toList
    link := some "https://example.com/story//".toList
    datePosted := some "2024-06-05".toList }

def c4outA : Story :=
  { headline := some "OpenAI releases new AI model this week".toList
    link := some "https://example.com/story/".toList
    datePosted := some "2024-06-05".toList
    sourceDomain := some "example.com".toList }

def c4outB : Story :=
  { headline := some "Anthropic ships new Claude coding tools".toList
    link := some "https://example.com/story/".toList
    datePosted := some "2024-06-05".toList
    sourceDomain := some "example.com".toList }

/-- A headline with a doubled strippable prefix: one pass of
`_clean_headline` removes only the first `Breaking:`. -/
def c5in : Story :=
  { headline := some "Breaking: Breaking: OpenAI debuts new AI model for coders".toList
    link := some "https://example.com/x".toList
    datePosted := some "2024-06-05".toList }

def c5once : Story :=
  { headline := some "Breaking: OpenAI debuts new AI model for coders".toList
    link := some "https://example.com/x".toList
    datePosted := some "2024-06-05".toList
    sourceDomain := some "example.com".toList }

def c5twice : Story :=
  { headline := some "OpenAI debuts new AI model for coders".toList
    link := some "https://example.com/x".toList
    datePosted := some "2024-06-05".toList
    sourceDomain := some "example.com".toList }

/-- Already clean and normalized stories for the witnesses. -/
def wFixed1 : Story :=
  { headline := some "OpenAI releases new AI model this week".toList
    link := some "https://example.com/a".toList
    datePosted := some "2024-06-05".toList }

def wFixed2 : Story :=
  { headline := some "Anthropic ships new Claude coding tools".toList
    link := some "https://example.com/b".toList
    datePosted := some "2024-06-04".toList }

/-- A story whose link normalizes to `wFixed1`'s (already-normalized)
link: `https://example.com/a/` loses its single trailing slash. -/
def wC4b : Story :=
  { headline := some "Anthropic ships new Claude coding tools".toList
    link := some "https://example.com/a/".toList
    datePosted := some "2024-06-04".toList }

/-- The expected processed form of `wFixed1`. -/
def wFixed1out : Story :=
  { headline := some "OpenAI releases new AI model this week".toList
    link := some "https://example.com/a".toList
    datePosted := some "2024-06-05".toList
    sourceDomain := some "example.com".toList }

/-- A story whose only defect is an empty `date_posted`. -/
def emptyDateStory : Story :=
  { headline := some "OpenAI releases new AI model this week".toList
    link := some "https://example.com/a".toList
    datePosted := some "".toList }

/-- The seven network indicators the specification lists (the code has an
eighth, `"timed out"`). -/
def claimedNetworkTerms : List Str :=
  ["timeout", "connection", "reset by peer", "dns", "unreachable",
   "socket", "network"].map String.toList

/-- A fetch operation that fails once and then succeeds, for the retry
witness. -/
def wOp : Nat → Except Unit Nat :=
  fun n => if n = 0 then .error () else .ok 7

/-- A fetch operation that always fails, for the retry witness. -/
def wOpFail : Nat → Except Nat Nat := fun n => .error n

/-- A concrete pseudo-random stream. -/
def wRnd : Nat → ℚ := fun _ => 1 / 2

/-! # Theorems -/

/-- The default similarity threshold is `0.75`. -/
lemma simThreshold75_eq : simThreshold75 = 3 / 4 := by
  have h1 : Rat.divInt 3 4 = simThreshold75 := by decide
  rw [← h1, Rat.divInt_eq_div]
  norm_num

/-- The integer comparison of `ratioGT` agrees with the rational one
`t * T < 2 * M` (for non-degenerate total length). -/
lemma ratioGT_iff_q (t : ℚ) (a b : Str) (hT : a.length + b.length ≠ 0) :
    ratioGT t a b = true ↔
      t * ((a.length + b.length : Nat) : ℚ) < 2 * (matchSum a b : ℚ) := by
  unfold ratioGT
  rw [if_neg hT, decide_eq_true_iff]
  have hden : (0 : ℚ) < (t.den : ℚ) := by exact_mod_cast t.pos
  constructor
  · intro h
    rw [← Rat.num_div_den t, div_mul_eq_mul_div, div_lt_iff hden]
    exact_mod_cast h
  · intro h
    rw [← Rat.num_div_den t, div_mul_eq_mul_div, div_lt_iff hden] at h
    exact_mod_cast h

/-! ## Result collection (C7) -/

lemma collectStep_eq (acc : List Story × List ProcessingError)
    (o : TaskOutcome) :
    collectStep acc o = (acc.1 ++ storiesOf o, acc.2 ++ (errOf o).toList) := by
  cases o with
  | done res src =>
    cases he : res.error <;> cases hs : res.stories <;>
      simp [collectStep, storiesOf, errOf, he, hs]
  | crashed msg => simp [collectStep, storiesOf, errOf]

lemma collect_foldl (l : List TaskOutcome) :
    ∀ acc : List Story × List ProcessingError,
      l.foldl collectStep acc =
        (acc.1 ++ l.flatMap storiesOf, acc.2 ++ l.filterMap errOf) := by
  induction l with
  | nil => intro acc; simp
  | cons o l ih =>
    intro acc
    rw [List.foldl_cons, ih, collectStep_eq]
    cases ho : errOf o <;>
      simp [List.filterMap_cons, ho, Option.toList, List.append_assoc]

/-- C7: the orchestrator's collection loop never aborts on a failing
source: a result carrying an error contributes exactly one
`ProcessingError{source, error}`, a result's stories are appended to the
combined list whether or not an error accompanied them, and an exception
escaping the task harness is recorded with source `"unknown"` — while
every other outcome's stories and errors are still collected. -/
theorem c7_collect_characterization (outcomes : List TaskOutcome) :
    (collectResults outcomes).1 = outcomes.flatMap storiesOf
    ∧ (collectResults outcomes).2 = outcomes.filterMap errOf
    ∧ (∀ res src e, res.error = some e →
        errOf (.done res src) = some { source := src, error := e })
    ∧ (∀ msg, errOf (.crashed msg) =
        some { source := "unknown".toList, error := msg })
    ∧ (∀ res src, storiesOf (.done res src) = res.stories.getD []) := by
  refine ⟨?_, ?_, ?_, ?_, ?_⟩
  · rw [collectResults, collect_foldl]; simp
  · rw [collectResults, collect_foldl]; simp
  · intro res src e he; simp [errOf, he]
  · intro msg; rfl
  · intro res src; rfl

/-! ## Error classification (C8) -/

/-- C8 counterexample: the message `"Request timed out"` contains none of
the seven network indicators the claim lists (and no rate-limit
indicator), yet `classify_exception` classifies it as a network error —
the code checks an eighth indicator, `"timed out"`. -/
theorem c8_timed_out_counterexample :
    classifyException "Request timed out".toList = .network
    ∧ claimedNetworkTerms.all
        (fun t => ! containsSub t (lowerL "Request timed out".toList)) = true
    ∧ isRateLimitError "Request timed out".toList = false := by
  refine ⟨by decide, by decide, by decide⟩

/-- C8 amended: `classify` is pure and returns `RateLimit` iff the
lowercased message contains one of the five rate-limit indicators
(checked first); otherwise `Network` iff it contains one of the *eight*
network indicators (`'timeout'`, `'connection'`, `'timed out'`,
`'reset by peer'`, `'dns'`, `'unreachable'`, `'socket'`, `'network'`);
and `Other` iff it matches neither set. -/
theorem c8_classify_characterization (msg : Str) :
    (classifyException msg = .rateLimit ↔
      ∃ t ∈ rateLimitTerms, containsSub t (lowerL msg) = true)
    ∧ (classifyException msg = .network ↔
      ((∀ t ∈ rateLimitTerms, containsSub t (lowerL msg) = false) ∧
        ∃ t ∈ networkTerms, containsSub t (lowerL msg) = true))
    ∧ (classifyException msg = .other ↔
      ((∀ t ∈ rateLimitTerms, containsSub t (lowerL msg) = false) ∧
        ∀ t ∈ networkTerms, containsSub t (lowerL msg) = false)) := by
  unfold classifyException isRateLimitError isNetworkError
  split_ifs with h1 h2 <;>
    simp only [List.any_eq_true, Bool.not_eq_true] at h1 ⊢ <;>
    try simp only [List.any_eq_true, Bool.not_eq_true] at h2
  · simp_all
  · push_neg at h1
    simp_all [Bool.not_eq_true]
  · push_neg at h1 h2
    simp_all [Bool.not_eq_true]

/-! ## The fetchers' error conversion (C10) -/

/-- C10: an exception raised inside the crawl/request block of either
fetcher — `scrape_website`'s crawl or `scrape_twitter`'s API request
(for any URL whose username component is non-empty, so the request is
reached) — is caught in the fetcher itself and converted into the
returned result `{stories: [], error: str(classify_exception(e))}`
(whose message is the original one); the surrounding
`retry_decorator(max_retries=3, initial_backoff=2.0)` of each fetcher
therefore sees a normal return — the failure consumes exactly one
attempt, with no retry and no backoff sleep. -/
theorem c10_fetcher_error_consumes_one_attempt (url msg currentDate : Str)
    (rnd : Nat → ℚ)
    (huser : ((splitOnChar '/' url).getLast?).getD [] ≠ []) :
    scrapeWebsite url (.raised msg) = { stories := some [], error := some msg }
    ∧ scrapeTwitter url currentDate (.raised msg) =
        { stories := some [], error := some msg }
    ∧ retryRun (fun _ => (Except.ok (scrapeWebsite url (.raised msg)) : Except Str FetchResult))
        rnd 2 2 (1 / 10) 3 =
      { calls := 1, sleeps := []
        result := .ok { stories := some [], error := some msg }
        exhaustLog := none }
    ∧ retryRun (fun _ => (Except.ok (scrapeTwitter url currentDate (.raised msg)) : Except Str FetchResult))
        rnd 2 2 (1 / 10) 3 =
      { calls := 1, sleeps := []
        result := .ok (scrapeTwitter url currentDate (.raised msg))
        exhaustLog := none } := by
  have htw : scrapeTwitter url currentDate (.raised msg) =
      { stories := some [], error := some msg } := by
    unfold scrapeTwitter
    rw [if_neg huser]
  exact ⟨rfl, htw, rfl, rfl⟩

/-- Witness for C10 at a concrete Twitter-profile URL (non-empty
username component). -/
theorem c10_fetcher_error_consumes_one_attempt_witness :
    scrapeWebsite "https://x.com/someuser".toList
        (.raised "boom".toList) =
      { stories := some [], error := some "boom".toList }
    ∧ scrapeTwitter "https://x.com/someuser".toList "2024-06-05".toList
        (.raised "boom".toList) =
      { stories := some [], error := some "boom".toList }
    ∧ retryRun (fun _ => (Except.ok (scrapeWebsite "https://x.com/someuser".toList
          (.raised "boom".toList)) : Except Str FetchResult))
        wRnd 2 2 (1 / 10) 3 =
      { calls := 1, sleeps := []
        result := .ok { stories := some [], error := some "boom".toList }
        exhaustLog := none }
    ∧ retryRun (fun _ => (Except.ok (scrapeTwitter "https://x.com/someuser".toList
          "2024-06-05".toList (.raised "boom".toList)) : Except Str FetchResult))
        wRnd 2 2 (1 / 10) 3 =
      { calls := 1, sleeps := []
        result := .ok (scrapeTwitter "https://x.com/someuser".toList
          "2024-06-05".toList (.raised "boom".toList))
        exhaustLog := none } :=
  c10_fetcher_error_consumes_one_attempt "https://x.com/someuser".toList
    "boom".toList "2024-06-05".toList wRnd (by decide)

/-! ## Date handling (C2) -/

/-- C2 counterexample: a story whose `date_posted` is the empty string is
*rejected* by `_is_valid_date` (the falsy pre-check fires before any
parsing), even though `_normalize_date` itself would default the empty
string to today — the claim says such a story is treated as dated today
and accepted. -/
theorem c2_empty_date_rejected :
    isValidDate defaultProc exToday { datePosted := some [] } = false
    ∧ normalizeDate exToday [] = some exToday
    ∧ processStories defaultProc exToday [emptyDateStory] = [] := by
  refine ⟨by decide, by decide, by decide⟩

/-- C2 amended: the recency stage accepts a story iff its `date_posted`
is non-empty and parses (via the eight absolute formats in order, then
the `today`/`yesterday`/`N days ago` fallbacks, then the default of
today) to a date at most `maxDaysOld` days before today under
midnight-truncated comparison.  With the defaults: `2 days ago` is
accepted, `3 days ago` rejected, a non-empty unparseable string defaults
to today and is accepted, `2024-06-03` is accepted and `2024-06-02`
rejected against a today of 2024-06-05, and `05/06/2024` parses
month-first because `%m/%d/%Y` precedes `%d/%m/%Y`. -/
theorem c2_recency_characterization :
    (∀ (cfg : ProcCfg) (today : Int) (s : Story),
      isValidDate cfg today s = true ↔
        (s.datePosted.getD [] ≠ [] ∧
          ∃ d, normalizeDate today (s.datePosted.getD []) = some d ∧
            today - d ≤ (cfg.maxDaysOld : Int)))
    ∧ isValidDate defaultProc exToday
        { datePosted := some "2 days ago".toList } = true
    ∧ isValidDate defaultProc exToday
        { datePosted := some "3 days ago".toList } = false
    ∧ isValidDate defaultProc exToday
        { datePosted := some "date unknown".toList } = true
    ∧ isValidDate defaultProc exToday
        { datePosted := some "2024-06-03".toList } = true
    ∧ isValidDate defaultProc exToday
        { datePosted := some "2024-06-02".toList } = false
    ∧ normalizeDate exToday "05/06/2024".toList =
        some (daysFromCivil 2024 5 6) := by
  refine ⟨?_, by decide, by decide, by decide, by decide, by decide, by decide⟩
  intro cfg today s
  unfold isValidDate
  dsimp only
  split_ifs with hds
  · simp [hds]
  · cases hnd : normalizeDate today (s.datePosted.getD []) with
    | none => simp [hds, hnd]
    | some d => simp [hds, hnd]

/-! ## The retry executor (C6) -/

/-- The backoff-with-jitter sleep before attempt `n + 1`. -/
def sleepVal (rnd : Nat → ℚ) (ib bm jf : ℚ) (n : Nat) : ℚ :=
  ib * bm ^ n + ib * bm ^ n * jf * (2 * rnd n - 1)

lemma retryAux_calls_pos (op : Nat → Except E A) (rnd : Nat → ℚ)
    (ib bm jf : ℚ) (maxR : Nat) :
    ∀ fuel attempt, 1 ≤ (retryAux op rnd ib bm jf maxR attempt fuel).calls := by
  intro fuel attempt
  unfold retryAux
  cases op attempt with
  | ok a => simp
  | error e =>
    cases fuel with
    | zero => simp
    | succ fuel' => simp

lemma retryAux_calls_le (op : Nat → Except E A) (rnd : Nat → ℚ)
    (ib bm jf : ℚ) (maxR : Nat) :
    ∀ fuel attempt, (retryAux op rnd ib bm jf maxR attempt fuel).calls ≤ fuel + 1 := by
  intro fuel
  induction fuel with
  | zero =>
    intro attempt
    unfold retryAux
    cases op attempt <;> simp
  | succ fuel' ih =>
    intro attempt
    unfold retryAux
    cases op attempt with
    | ok a => simp
    | error e =>
      have := ih (attempt + 1)
      simp only []
      omega

lemma retryAux_sleeps_shape (op : Nat → Except E A) (rnd : Nat → ℚ)
    (ib bm jf : ℚ) (maxR : Nat) :
    ∀ fuel attempt,
      (retryAux op rnd ib bm jf maxR attempt fuel).sleeps =
        (List.range ((retryAux op rnd ib bm jf maxR attempt fuel).calls - 1)).map
          (fun k => sleepVal rnd ib bm jf (attempt + k)) := by
  intro fuel
  induction fuel with
  | zero =>
    intro attempt
    unfold retryAux
    cases op attempt <;> simp
  | succ fuel' ih =>
    intro attempt
    unfold retryAux
    cases op attempt with
    | ok a => simp
    | error e =>
      simp only []
      have hpos := retryAux_calls_pos op rnd ib bm jf maxR fuel' (attempt + 1)
      set t := retryAux op rnd ib bm jf maxR (attempt + 1) fuel' with ht
      obtain ⟨n, hn⟩ : ∃ n, t.calls = n + 1 := ⟨t.calls - 1, by omega⟩
      rw [ih (attempt + 1), hn]
      simp only [Nat.add_sub_cancel, List.range_succ_eq_map, List.map_cons,
        List.map_map]
      rw [show (fun k => sleepVal rnd ib bm jf (attempt + 1 + k)) =
          ((fun k => sleepVal rnd ib bm jf (attempt + k)) ∘ Nat.succ) from by
        funext k
        simp only [Function.comp_apply]
        congr 1
        omega]
      simp [sleepVal]

lemma retryAux_success (op : Nat → Except E A) (rnd : Nat → ℚ)
    (ib bm jf : ℚ) (maxR : Nat) :
    ∀ i fuel attempt a, i ≤ fuel →
      (∀ k, k < i → ∃ e, op (attempt + k) = .error e) →
      op (attempt + i) = .ok a →
      (retryAux op rnd ib bm jf maxR attempt fuel).result = .ok a ∧
        (retryAux op rnd ib bm jf maxR attempt fuel).calls = i + 1 := by
  intro i
  induction i with
  | zero =>
    intro fuel attempt a _ _ hok
    unfold retryAux
    rw [show op attempt = .ok a by simpa using hok]
    exact ⟨rfl, rfl⟩
  | succ i' ih =>
    intro fuel attempt a hle hfail hok
    obtain ⟨fuel', rfl⟩ : ∃ f, fuel = f + 1 := ⟨fuel - 1, by omega⟩
    obtain ⟨e, he⟩ := hfail 0 (Nat.succ_pos _)
    unfold retryAux
    rw [show op attempt = .error e by simpa using he]
    simp only []
    have := ih fuel' (attempt + 1) a (by omega)
      (fun k hk => by
        obtain ⟨e', he'⟩ := hfail (k + 1) (by omega)
        exact ⟨e', by rw [← he']; congr 1; omega⟩)
      (by rw [← hok]; congr 1; omega)
    exact ⟨this.1, by omega⟩

lemma retryAux_exhaust (op : Nat → Except E A) (rnd : Nat → ℚ)
    (ib bm jf : ℚ) (maxR : Nat) (err : Nat → E) :
    ∀ fuel attempt,
      (∀ k, k ≤ fuel → op (attempt + k) = .error (err (attempt + k))) →
      (retryAux op rnd ib bm jf maxR attempt fuel).result =
          .error (err (attempt + fuel)) ∧
        (retryAux op rnd ib bm jf maxR attempt fuel).calls = fuel + 1 ∧
        (retryAux op rnd ib bm jf maxR attempt fuel).exhaustLog =
          some (maxR + 1) := by
  intro fuel
  induction fuel with
  | zero =>
    intro attempt hfail
    unfold retryAux
    rw [show op attempt = .error (err attempt) by simpa using hfail 0 (le_refl 0)]
    exact ⟨rfl, rfl, rfl⟩
  | succ fuel' ih =>
    intro attempt hfail
    unfold retryAux
    rw [show op attempt = .error (err attempt) by
      simpa using hfail 0 (Nat.zero_le _)]
    simp only []
    obtain ⟨h1, h2, h3⟩ := ih (attempt + 1) (fun k hk => by
      have h := hfail (k + 1) (by omega)
      have e : attempt + 1 + k = attempt + (k + 1) := by omega
      rw [e]; exact h)
    have e : attempt + 1 + fuel' = attempt + (fuel' + 1) := by omega
    exact ⟨by rw [h1, e], by simp [h2], h3⟩

/-- C6: the retry executor invokes the operation at most
`maxRetries + 1` times and returns immediately on the first success (after
`i` failures it has made exactly `i + 1` calls); it sleeps exactly once
between consecutive attempts (`calls - 1` sleeps — none after the final
attempt), each sleep being `initialBackoff * backoffMultiplier^attempt`
perturbed by the signed jitter `backoff * jitter * (2*random() - 1)`,
whose magnitude is at most `backoff * jitterFraction`; and when every
attempt fails it raises the last error while logging the attempt count
`maxRetries + 1`. -/
theorem c6_retry_executor_contract (E A : Type) (op : Nat → Except E A)
    (rnd : Nat → ℚ) (ib bm jf : ℚ) (maxR : Nat)
    (hr : ∀ n, 0 ≤ rnd n ∧ rnd n < 1) (hib : 0 ≤ ib) (hbm : 0 ≤ bm)
    (hjf : 0 ≤ jf) :
    (retryRun op rnd ib bm jf maxR).calls ≤ maxR + 1
    ∧ (∀ i a, i ≤ maxR → (∀ k, k < i → ∃ e, op k = .error e) →
        op i = .ok a →
        (retryRun op rnd ib bm jf maxR).result = .ok a ∧
          (retryRun op rnd ib bm jf maxR).calls = i + 1)
    ∧ (retryRun op rnd ib bm jf maxR).sleeps.length =
        (retryRun op rnd ib bm jf maxR).calls - 1
    ∧ (∀ k, (hk : k < (retryRun op rnd ib bm jf maxR).sleeps.length) →
        (retryRun op rnd ib bm jf maxR).sleeps.get ⟨k, hk⟩ =
            ib * bm ^ k + ib * bm ^ k * jf * (2 * rnd k - 1) ∧
          |(retryRun op rnd ib bm jf maxR).sleeps.get ⟨k, hk⟩ - ib * bm ^ k| ≤
            ib * bm ^ k * jf)
    ∧ (∀ err : Nat → E, (∀ k, k ≤ maxR → op k = .error (err k)) →
        (retryRun op rnd ib bm jf maxR).result = .error (err maxR) ∧
          (retryRun op rnd ib bm jf maxR).calls = maxR + 1 ∧
          (retryRun op rnd ib bm jf maxR).exhaustLog = some (maxR + 1)) := by
  refine ⟨retryAux_calls_le op rnd ib bm jf maxR maxR 0, ?_, ?_, ?_, ?_⟩
  · intro i a hi hfail hok
    exact retryAux_success op rnd ib bm jf maxR i maxR 0 a hi
      (by simpa using hfail) (by simpa using hok)
  · unfold retryRun
    rw [retryAux_sleeps_shape]
    simp
  · intro k hk
    have hshape := retryAux_sleeps_shape op rnd ib bm jf maxR maxR 0
    unfold retryRun at hk ⊢
    have hval : (retryAux op rnd ib bm jf maxR 0 maxR).sleeps.get ⟨k, hk⟩ =
        sleepVal rnd ib bm jf k := by
      have := List.get_of_eq hshape ⟨k, hk⟩
      rw [this]
      simp [sleepVal]
    refine ⟨by rw [hval]; simp [sleepVal], ?_⟩
    rw [hval]
    have hb : 0 ≤ ib * bm ^ k := mul_nonneg hib (pow_nonneg hbm k)
    have habs : |2 * rnd k - 1| ≤ 1 := by
      have h1 := (hr k).1
      have h2 := (hr k).2
      rw [abs_le]
      constructor <;> linarith
    calc |sleepVal rnd ib bm jf k - ib * bm ^ k|
        = |ib * bm ^ k * jf * (2 * rnd k - 1)| := by rw [sleepVal]; ring_nf
      _ = |ib * bm ^ k * jf| * |2 * rnd k - 1| := abs_mul _ _
      _ ≤ |ib * bm ^ k * jf| * 1 :=
          mul_le_mul_of_nonneg_left habs (abs_nonneg _)
      _ = ib * bm ^ k * jf := by
          rw [mul_one, abs_of_nonneg (mul_nonneg hb hjf)]
  · intro err hfail
    have := retryAux_exhaust op rnd ib bm jf maxR err maxR 0
      (by simpa using hfail)
    simpa using this

/-- Witness for C6 at concrete inputs: an operation failing once then
succeeding is called exactly twice and yields the success; an operation
failing always is called `maxRetries + 1 = 4` times, raises its last
error, and logs 4 attempts. -/
theorem c6_retry_executor_contract_witness :
    ((retryRun wOp wRnd 1 2 (1 / 10) 3).result = .ok 7 ∧
      (retryRun wOp wRnd 1 2 (1 / 10) 3).calls = 2)
    ∧ ((retryRun wOpFail wRnd 1 2 (1 / 10) 3).result = .error 3 ∧
        (retryRun wOpFail wRnd 1 2 (1 / 10) 3).calls = 4 ∧
        (retryRun wOpFail wRnd 1 2 (1 / 10) 3).exhaustLog = some 4) := by
  constructor
  · exact (c6_retry_executor_contract Unit Nat wOp wRnd 1 2 (1 / 10) 3
      (fun n => by constructor <;> norm_num [wRnd]) (by norm_num) (by norm_num)
      (by norm_num)).2.1 1 7 (by norm_num)
      (fun k hk => ⟨(), by
        have : k = 0 := by omega
        subst this
        rfl⟩) rfl
  · exact (c6_retry_executor_contract Nat Nat wOpFail wRnd 1 2 (1 / 10) 3
      (fun n => by constructor <;> norm_num [wRnd]) (by norm_num) (by norm_num)
      (by norm_num)).2.2.2.2 (fun k => k) (fun k _ => rfl)

/-! ## Concurrency bound (C9) -/

lemma countP_set (p : TaskPhase) :
    ∀ (l : List OrchTask) (i : Nat) (t u : OrchTask),
      l.get? i = some t →
      ((l.set i u).filter (fun x => x.phase = p)).length +
          (if t.phase = p then 1 else 0)
        = (l.filter (fun x => x.phase = p)).length +
          (if u.phase = p then 1 else 0) := by
  intro l
  induction l with
  | nil => intro i t u h; simp at h
  | cons x xs ih =>
    intro i t u h
    cases i with
    | zero =>
      simp only [List.get?] at h
      obtain rfl : x = t := by injection h
      simp only [List.set, List.filter_cons]
      split_ifs <;> simp_all <;> omega
    | succ i' =>
      simp only [List.get?] at h
      have := ih i' t u h
      simp only [List.set, List.filter_cons]
      split_ifs <;> simp_all <;> omega

lemma orch_inv (cap : Nat) (kinds : List SrcKind) (s : OrchState)
    (h : OrchReach (orchInit cap kinds) s) :
    holdingCount s + s.avail = cap := by
  induction h with
  | refl =>
    have hz : ∀ p, p ≠ TaskPhase.waiting →
        countPhase p (orchInit cap kinds) = 0 := by
      intro p hp
      unfold countPhase orchInit
      simp only [List.filter_map, List.length_map]
      rw [List.filter_eq_nil_iff.mpr]
      · simp
      · intro k _
        simpa using fun hcontra => hp hcontra.symm
    unfold holdingCount
    rw [hz .fetching (by simp), hz .pacing (by simp)]
    simp [orchInit]
  | tail hr hstep ih =>
    cases hstep with
    | acquire i t ht hw ha =>
      have hf := countP_set .fetching _ i t { kind := t.kind, phase := .fetching } ht
      have hp := countP_set .pacing _ i t { kind := t.kind, phase := .fetching } ht
      rw [hw] at hf hp
      unfold holdingCount countPhase at ih ⊢
      simp at hf hp ⊢
      omega
    | finishFetch i t ht hfe =>
      have hf := countP_set .fetching _ i t { kind := t.kind, phase := .pacing } ht
      have hp := countP_set .pacing _ i t { kind := t.kind, phase := .pacing } ht
      rw [hfe] at hf hp
      unfold holdingCount countPhase at ih ⊢
      simp at hf hp ⊢
      omega
    | release i t ht hpa =>
      have hf := countP_set .fetching _ i t { kind := t.kind, phase := .taskDone } ht
      have hp := countP_set .pacing _ i t { kind := t.kind, phase := .taskDone } ht
      rw [hpa] at hf hp
      unfold holdingCount countPhase at ih ⊢
      simp at hf hp ⊢
      omega

/-- C9: in every state the orchestrator's scheduler can reach from the
initial state (full semaphore of size `globalConcurrency`, all submitted
website/social tasks waiting, any submission order), the number of fetch
tasks in flight — counted across both kinds — is at most
`globalConcurrency`, and so is the number of tasks holding a slot at
all (fetching or pacing). -/
theorem c9_concurrency_bound (cap : Nat) (kinds : List SrcKind)
    (s : OrchState) (h : OrchReach (orchInit cap kinds) s) :
    countPhase .fetching s ≤ cap ∧ holdingCount s ≤ cap := by
  have := orch_inv cap kinds s h
  unfold holdingCount at *
  omega

/-- Witness for C9: with `globalConcurrency = 2` and three submitted
sources, the state after two acquisitions is reachable and has two
fetches in flight — within the bound. -/
theorem c9_concurrency_bound_witness :
    countPhase .fetching
      { avail := 0
        tasks := [{ kind := .website, phase := .fetching },
                  { kind := .social, phase := .fetching },
                  { kind := .website, phase := .waiting }] } ≤ 2
    ∧ holdingCount
      { avail := 0
        tasks := [{ kind := .website, phase := .fetching },
                  { kind := .social, phase := .fetching },
                  { kind := .website, phase := .waiting }] } ≤ 2 := by
  have h1 : OrchStep (orchInit 2 [.website, .social, .website])
      { avail := 1
        tasks := [{ kind := .website, phase := .fetching },
                  { kind := .social, phase := .waiting },
                  { kind := .website, phase := .waiting }] } :=
    OrchStep.acquire (orchInit 2 [.website, .social, .website]) 0
      { kind := .website, phase := .waiting } rfl rfl (by decide)
  have h2 : OrchStep
      { avail := 1
        tasks := [{ kind := .website, phase := .fetching },
                  { kind := .social, phase := .waiting },
                  { kind := .website, phase := .waiting }] }
      { avail := 0
        tasks := [{ kind := .website, phase := .fetching },
                  { kind := .social, phase := .fetching },
                  { kind := .website, phase := .waiting }] } :=
    OrchStep.acquire _ 1 { kind := .social, phase := .waiting } rfl rfl
      (by decide)
  exact c9_concurrency_bound 2 [.website, .social, .website] _
    (OrchReach.tail (OrchReach.tail OrchReach.refl h1) h2)

/-! ## Sorting lemmas -/

lemma insertStory_perm (today : Int) (x : Story) :
    ∀ l, List.Perm (insertStory today x l) (x :: l) := by
  intro l
  induction l with
  | nil => simp [insertStory]
  | cons y ys ih =>
    unfold insertStory
    split_ifs
    · exact List.Perm.refl _
    · exact (ih.cons y).trans (List.Perm.swap x y ys)

lemma foldl_insert_perm (today : Int) :
    ∀ (l acc : List Story),
      List.Perm (l.foldl (fun a s => insertStory today s a) acc) (acc ++ l) := by
  intro l
  induction l with
  | nil => intro acc; simp
  | cons s l ih =>
    intro acc
    refine List.Perm.trans (ih _) ?_
    refine List.Perm.trans ((insertStory_perm today s acc).append_right l) ?_
    exact List.perm_middle.symm

lemma sortStories_perm (today : Int) (l : List Story) :
    List.Perm (sortStories today l) l := by
  simpa using foldl_insert_perm today l []

lemma insertStory_sorted (today : Int) (x : Story) :
    ∀ l, sortedDesc today l → sortedDesc today (insertStory today x l) := by
  intro l
  induction l with
  | nil => intro _; simp [insertStory, sortedDesc]
  | cons y ys ih =>
    intro hs
    unfold sortedDesc at hs
    rw [List.pairwise_cons] at hs
    unfold insertStory
    split_ifs with hlt
    · refine List.Pairwise.cons ?_ (List.Pairwise.cons hs.1 hs.2)
      intro z hz
      rcases List.mem_cons.mp hz with rfl | hz'
      · exact le_of_lt hlt
      · exact le_trans (hs.1 z hz') (le_of_lt hlt)
    · refine List.Pairwise.cons ?_ (ih hs.2)
      intro z hz
      rcases List.mem_cons.mp ((insertStory_perm today x ys).mem_iff.mp hz) with
        rfl | hz'
      · exact not_lt.mp hlt
      · exact hs.1 z hz'

lemma sortStories_sorted (today : Int) (l : List Story) :
    sortedDesc today (sortStories today l) := by
  suffices h : ∀ (l acc : List Story), sortedDesc today acc →
      sortedDesc today (l.foldl (fun a s => insertStory today s a) acc) by
    exact h l [] (List.Pairwise.nil)
  intro l
  induction l with
  | nil => intro acc h; exact h
  | cons s l ih => intro acc h; exact ih _ (insertStory_sorted today s acc h)

lemma insertStory_of_ge (today : Int) (x : Story) :
    ∀ l, (∀ y ∈ l, ¬ dateKey today y < dateKey today x) →
      insertStory today x l = l ++ [x] := by
  intro l
  induction l with
  | nil => intro _; rfl
  | cons y ys ih =>
    intro h
    unfold insertStory
    rw [if_neg (h y (List.mem_cons_self y ys))]
    rw [ih fun z hz => h z (List.mem_cons_of_mem y hz)]
    rfl

lemma foldl_insert_of_sorted (today : Int) :
    ∀ (l acc : List Story), sortedDesc today (acc ++ l) →
      l.foldl (fun a s => insertStory today s a) acc = acc ++ l := by
  intro l
  induction l with
  | nil => intro acc _; simp
  | cons s l ih =>
    intro acc h
    have hge : ∀ y ∈ acc, ¬ dateKey today y < dateKey today s := by
      intro y hy
      exact not_lt.mpr
        ((List.pairwise_append.mp h).2.2 y hy s (List.mem_cons_self s l))
    rw [List.foldl_cons, insertStory_of_ge today s acc hge, ih (acc ++ [s])
      (by simpa using h), List.append_assoc]
    rfl

lemma sortStories_of_sorted (today : Int) (l : List Story)
    (h : sortedDesc today l) : sortStories today l = l := by
  simpa using foldl_insert_of_sorted today l [] (by simpa using h)

/-! ## The loop body -/

lemma isDup_nil (cfg : ProcCfg) (s : Story) : isDup cfg s [] = false := by
  simp [isDup]

lemma isDup_iff (cfg : ProcCfg) (s : Story) (ex : List Story) :
    isDup cfg s ex = true ↔
      (∃ e ∈ ex, normalizeUrl (e.link.getD []) = normalizeUrl (s.link.getD []))
      ∨ (lowerL (s.headline.getD []) ≠ [] ∧ ∃ e ∈ ex,
          lowerL (e.headline.getD []) ≠ [] ∧
          ratioGT cfg.similarityThreshold (lowerL (s.headline.getD []))
            (lowerL (e.headline.getD [])) = true) := by
  unfold isDup
  dsimp only
  split_ifs with hu hsh
  · simp only [List.any_eq_true, beq_iff_eq] at hu
    constructor
    · intro _; exact Or.inl hu
    · intro _; rfl
  · simp only [List.any_eq_true, beq_iff_eq] at hu
    push_neg at hu
    constructor
    · intro h; exact absurd h (by simp)
    · rintro (⟨e, he, heq⟩ | ⟨hne, _⟩)
      · exact absurd heq (hu e he)
      · exact absurd hsh hne
  · simp only [List.any_eq_true, beq_iff_eq, Bool.and_eq_true, ne_eq,
      decide_eq_true_eq] at hu ⊢
    push_neg at hu
    constructor
    · rintro ⟨e, he, hne, hgt⟩
      exact Or.inr ⟨hsh, e, he, by simpa using hne, hgt⟩
    · rintro (⟨e, he, heq⟩ | ⟨_, e, he, hne, hgt⟩)
      · exact absurd heq (hu e he)
      · exact ⟨e, he, by simpa using hne, hgt⟩

lemma step_eq (cfg : ProcCfg) (today : Int) (acc : List Story) (s : Story) :
    step cfg today acc s =
      if isDup cfg s acc then acc
      else if survives cfg today s then acc ++ [enrichStory cfg s]
      else acc := by
  unfold step survives enrichStory
  dsimp only
  split_ifs <;> simp_all

lemma survives_parts (cfg : ProcCfg) (today : Int) (s : Story)
    (h : survives cfg today s = true) :
    lenFails cfg (applyClean cfg s) = false ∧
    isRelevant (applyNorm (applyClean cfg s)) = true ∧
    isValidDate cfg today (applyNorm (applyClean cfg s)) = true := by
  unfold survives at h
  dsimp only at h
  split_ifs at h with h1 h2 h3
  exact ⟨by simpa using h1, by simpa using h2, by simpa using h3⟩

/-! ## Field lemmas -/

lemma applyClean_link (cfg : ProcCfg) (s : Story) :
    (applyClean cfg s).link = s.link := by
  cases hh : s.headline <;> simp [applyClean, hh]

lemma applyClean_date (cfg : ProcCfg) (s : Story) :
    (applyClean cfg s).datePosted = s.datePosted := by
  cases hh : s.headline <;> simp [applyClean, hh]

lemma applyNorm_headline (s : Story) :
    (applyNorm s).headline = s.headline := by
  cases hl : s.link <;> simp [applyNorm, hl]

lemma applyNorm_date (s : Story) :
    (applyNorm s).datePosted = s.datePosted := by
  cases hl : s.link <;> simp [applyNorm, hl]

lemma attachDomain_headline (s : Story) :
    (attachDomain s).headline = s.headline := by
  cases hl : s.link <;> simp [attachDomain, hl]

lemma attachDomain_link (s : Story) : (attachDomain s).link = s.link := by
  cases hl : s.link <;> simp [attachDomain, hl]

lemma attachDomain_date (s : Story) :
    (attachDomain s).datePosted = s.datePosted := by
  cases hl : s.link <;> simp [attachDomain, hl]

lemma enrichStory_headline (cfg : ProcCfg) (s : Story) :
    (enrichStory cfg s).headline = (applyClean cfg s).headline := by
  unfold enrichStory
  rw [attachDomain_headline, applyNorm_headline]

lemma enrichStory_link (cfg : ProcCfg) (s : Story) :
    (enrichStory cfg s).link = s.link.map normalizeUrl := by
  unfold enrichStory
  rw [attachDomain_link]
  rw [show (applyNorm (applyClean cfg s)).link =
      (applyClean cfg s).link.map normalizeUrl by
    cases hl : (applyClean cfg s).link <;> simp [applyNorm, hl]]
  rw [applyClean_link]

/-! ## Fixed stories -/

lemma applyClean_of_fixed (cfg : ProcCfg) (s : Story) (h : cleanFixed cfg s) :
    applyClean cfg s = s := by
  unfold cleanFixed at h
  cases s with
  | mk hd lk dp sd =>
    cases hd with
    | none => rfl
    | some h0 =>
      simp only [Option.getD] at h
      simp [applyClean, h]

lemma normalizeUrl_nil_ne : normalizeUrl [] ≠ [] := by decide

lemma normFixed_some (s : Story) (h : normFixed s) :
    ∃ u, s.link = some u ∧ normalizeUrl u = u := by
  unfold normFixed at h
  cases hl : s.link with
  | none =>
    rw [hl] at h
    exact absurd h (by simpa using normalizeUrl_nil_ne)
  | some u =>
    rw [hl] at h
    exact ⟨u, rfl, by simpa using h⟩

lemma applyNorm_of_fixed (s : Story) (h : normFixed s) : applyNorm s = s := by
  obtain ⟨u, hu, hfix⟩ := normFixed_some s h
  cases s with
  | mk hd lk dp sd =>
    simp only at hu
    subst hu
    simp [applyNorm, hfix]

lemma attachDomain_idem (s : Story) :
    attachDomain (attachDomain s) = attachDomain s := by
  cases s with
  | mk hd lk dp sd => cases lk <;> simp [attachDomain]

lemma enrich_of_fixed (cfg : ProcCfg) (s : Story) (hc : cleanFixed cfg s)
    (hn : normFixed s) : enrichStory cfg s = attachDomain s := by
  unfold enrichStory
  rw [applyClean_of_fixed cfg s hc, applyNorm_of_fixed s hn]

lemma isRelevantStr_nil : isRelevantStr [] = false := by decide

lemma relevant_ne_empty (s : Story) (h : isRelevant s = true) :
    s.headline.getD [] ≠ [] := by
  intro hemp
  unfold isRelevant at h
  rw [hemp, isRelevantStr_nil] at h
  exact absurd h (by simp)

/-! ## Output sanity (C3) -/

lemma isPrefixOf_append_self : ∀ (p l : Str), p.isPrefixOf (p ++ l) = true := by
  intro p l
  induction p with
  | nil => simp
  | cons c cs ih => simpa using ih

lemma schemeSplit_fst (v : Str) :
    (schemeSplit v).1 = "https://".toList ∨ (schemeSplit v).1 = "http://".toList := by
  unfold schemeSplit
  split_ifs <;> simp

lemma normalizeUrl_split (u : Str) :
    ∃ pre rest, normalizeUrl u = pre ++ rest ∧
      (pre = "https://".toList ∨ pre = "http://".toList) := by
  unfold normalizeUrl
  dsimp only
  refine ⟨_, _, List.append_assoc _ _ _, schemeSplit_fst _⟩

lemma normalizeUrl_scheme (u : Str) :
    ("http://".toList.isPrefixOf (normalizeUrl u) ||
      "https://".toList.isPrefixOf (normalizeUrl u)) = true := by
  obtain ⟨pre, rest, heq, hpre⟩ := normalizeUrl_split u
  rw [heq]
  rcases hpre with rfl | rfl
  · rw [isPrefixOf_append_self]
    simp
  · rw [isPrefixOf_append_self]
    simp

lemma step_preserves_ok (cfg : ProcCfg) (today : Int) (acc : List Story)
    (s : Story) (hacc : ∀ e ∈ acc, headlineOK cfg e ∧ linkOK e) :
    ∀ e ∈ step cfg today acc s, headlineOK cfg e ∧ linkOK e := by
  intro e he
  rw [step_eq] at he
  split_ifs at he with h1 h2
  · exact hacc e he
  · rcases List.mem_append.mp he with h | h
    · exact hacc e h
    · have heq : e = enrichStory cfg s := by simpa using h
      subst heq
      obtain ⟨hlen, hrel, hdate⟩ := survives_parts cfg today s h2
      constructor
      · intro hd hhd
        rw [enrichStory_headline] at hhd
        unfold lenFails at hlen
        rw [hhd] at hlen
        simpa using hlen
      · intro u hu
        rw [enrichStory_link] at hu
        cases hl : s.link with
        | none => rw [hl] at hu; simp at hu
        | some u0 =>
          rw [hl] at hu
          simp only [Option.map_some'] at hu
          injection hu with hu
          rw [← hu]
          exact normalizeUrl_scheme u0
  · exact hacc e he

/-- C3: `process_stories` never returns a story whose cleaned headline is
shorter than `minHeadlineLength`, nor one whose stored (normalized) link
lacks an `http://` or `https://` scheme. -/
theorem c3_output_headline_and_scheme (cfg : ProcCfg) (today : Int)
    (l : List Story) (s : Story) (hs : s ∈ processStories cfg today l) :
    headlineOK cfg s ∧ linkOK s := by
  unfold processStories at hs
  rw [(sortStories_perm today _).mem_iff] at hs
  revert hs
  suffices h : ∀ (l acc : List Story),
      (∀ e ∈ acc, headlineOK cfg e ∧ linkOK e) →
      ∀ e ∈ l.foldl (step cfg today) acc, headlineOK cfg e ∧ linkOK e by
    intro hs
    exact h l [] (by simp) s hs
  intro l
  induction l with
  | nil => intro acc hacc; exact hacc
  | cons a l ih =>
    intro acc hacc
    exact ih (step cfg today acc a) (step_preserves_ok cfg today acc a hacc)

/-- Witness for C3 on a concrete run: the single processed story has a
39-character headline (≥ 20) and an `https://` link. -/
theorem c3_output_headline_and_scheme_witness :
    headlineOK defaultProc wFixed1out ∧ linkOK wFixed1out :=
  c3_output_headline_and_scheme defaultProc exToday [wFixed1] wFixed1out
    (by decide)

/-! ## Deduplication invariant (C1) -/

lemma lowerL_eq_nil (x : Str) : lowerL x = [] ↔ x = [] := by
  unfold lowerL
  exact List.map_eq_nil

lemma step_pairwise (cfg : ProcCfg) (today : Int) (acc : List Story)
    (s : Story) (hfixs : cleanFixed cfg s ∧ normFixed s)
    (hacc : ∀ e ∈ acc, storedOK cfg e)
    (hp : List.Pairwise (acceptedSeparated cfg) acc) :
    (∀ e ∈ step cfg today acc s, storedOK cfg e) ∧
      List.Pairwise (acceptedSeparated cfg) (step cfg today acc s) := by
  rw [step_eq]
  split_ifs with h1 h2
  · exact ⟨hacc, hp⟩
  · obtain ⟨hcf, hnf⟩ := hfixs
    obtain ⟨u, hu, hufix⟩ := normFixed_some s hnf
    have henr : enrichStory cfg s = attachDomain s := enrich_of_fixed cfg s hcf hnf
    obtain ⟨hlen, hrel, hdate⟩ := survives_parts cfg today s h2
    have hehead : (enrichStory cfg s).headline = s.headline := by
      rw [henr, attachDomain_headline]
    have helink : (enrichStory cfg s).link = some (normalizeUrl u) := by
      rw [enrichStory_link, hu]
      rfl
    have hrel' : isRelevant s = true := by
      rw [applyClean_of_fixed cfg s hcf, applyNorm_of_fixed s hnf] at hrel
      exact hrel
    have hne : s.headline.getD [] ≠ [] := relevant_ne_empty s hrel'
    have hdupfalse := h1
    rw [isDup_iff] at hdupfalse
    push_neg at hdupfalse
    have hsok : storedOK cfg (enrichStory cfg s) := by
      refine ⟨?_, ?_, ?_⟩
      · unfold cleanFixed
        rw [hehead]
        exact hcf
      · unfold normFixed
        rw [helink]
        simpa [hufix] using hufix
      · rw [hehead]
        exact hne
    constructor
    · intro e he
      rcases List.mem_append.mp he with h | h
      · exact hacc e h
      · rw [List.mem_singleton.mp h]
        exact hsok
    · rw [List.pairwise_append]
      refine ⟨hp, List.pairwise_singleton _ _, ?_⟩
      intro a ha b hb
      rw [List.mem_singleton.mp hb]
      obtain ⟨hacf, hanf, hane⟩ := hacc a ha
      obtain ⟨v, hv, hvfix⟩ := normFixed_some a hanf
      constructor
      · rw [helink, hv]
        intro hcontra
        injection hcontra with hveq
        have hx := hdupfalse.1 a ha
        rw [hv, hu] at hx
        simp only [Option.getD_some] at hx
        rw [hvfix] at hx
        exact hx hveq
      · rw [hehead]
        have hslow : lowerL (s.headline.getD []) ≠ [] := by
          rw [ne_eq, lowerL_eq_nil]
          exact hne
        have halow : lowerL (a.headline.getD []) ≠ [] := by
          rw [ne_eq, lowerL_eq_nil]
          exact hane
        have := hdupfalse.2 hslow a ha halow
        simpa using this
  · exact ⟨hacc, hp⟩

lemma processAcc_pairwise (cfg : ProcCfg) (today : Int) :
    ∀ (l acc : List Story),
      (∀ s ∈ l, cleanFixed cfg s ∧ normFixed s) →
      (∀ e ∈ acc, storedOK cfg e) →
      List.Pairwise (acceptedSeparated cfg) acc →
      (∀ e ∈ l.foldl (step cfg today) acc, storedOK cfg e) ∧
        List.Pairwise (acceptedSeparated cfg) (l.foldl (step cfg today) acc) := by
  intro l
  induction l with
  | nil => intro acc _ hacc hp; exact ⟨hacc, hp⟩
  | cons a l ih =>
    intro acc hfix hacc hp
    have hstep := step_pairwise cfg today acc a
      (hfix a (List.mem_cons_self a l)) hacc hp
    exact ih (step cfg today acc a)
      (fun s hs => hfix s (List.mem_cons_of_mem a hs)) hstep.1 hstep.2

/-- C1 amended: for input lists whose headlines are fixed points of
cleaning and whose links are fixed points of normalization, the output is
one representative per class: no two distinct output stories have equal
stored links, and along the acceptance order every accepted story's
lowercase headline has similarity ratio not above the threshold against
each earlier-accepted one (in the candidate-versus-existing direction the
code computes).  Without the fixed-point hypotheses the claim is false:
the duplicate check compares the candidate's raw headline against cleaned
ones and re-normalizes stored links, which `c1_similarity_counterexample`
exploits. -/
theorem c1_unique_representatives_of_fixed_inputs (cfg : ProcCfg)
    (today : Int) (l : List Story)
    (hfix : ∀ s ∈ l, cleanFixed cfg s ∧ normFixed s) :
    List.Pairwise (fun a b => a.link ≠ b.link) (processStories cfg today l)
    ∧ List.Pairwise (acceptedSeparated cfg) (l.foldl (step cfg today) []) := by
  obtain ⟨hok, hp⟩ := processAcc_pairwise cfg today l [] hfix (by simp)
    List.Pairwise.nil
  refine ⟨?_, hp⟩
  have hlink : List.Pairwise (fun a b : Story => a.link ≠ b.link)
      (l.foldl (step cfg today) []) :=
    hp.imp fun hab => hab.1
  unfold processStories
  exact ((sortStories_perm today (l.foldl (step cfg today) [])).pairwise_iff
    fun hab => Ne.symm hab).mpr hlink

/-- Witness for C1 (amended) at a concrete fixed-point input. -/
theorem c1_unique_representatives_witness :
    List.Pairwise (fun a b : Story => a.link ≠ b.link)
      (processStories defaultProc exToday [wFixed1, wFixed2])
    ∧ List.Pairwise (acceptedSeparated defaultProc)
      ([wFixed1, wFixed2].foldl (step defaultProc exToday) []) :=
  c1_unique_representatives_of_fixed_inputs defaultProc exToday
    [wFixed1, wFixed2] (by decide)

/-- C1 counterexample: the two stories of `[c1a, c1b]` differ only by a
widened whitespace run in the second headline (and by their links);
the raw-versus-cleaned similarity at the duplicate check is
76/102 ≤ 0.75, so both are accepted — yet their *cleaned* headlines are
identical, so the output contains two distinct stories whose headline
similarity (1.0) exceeds the threshold. -/
theorem c1_similarity_counterexample :
    processStories defaultProc exToday [c1a, c1b] = [c1outA, c1outB]
    ∧ c1outA ≠ c1outB
    ∧ ratioGT defaultProc.similarityThreshold
        (lowerL (c1outA.headline.getD [])) (lowerL (c1outB.headline.getD []))
        = true := by
  refine ⟨by decide, by decide, by decide⟩

/-! ## First-seen-wins deduplication (C4) -/

/-- C4 amended: if the first story's normalized link is a fixed point of a
second normalization pass (for instance, a link that is already
normalized), then of two stories whose links normalize to the same URL
but whose headlines differ, both otherwise passing every filter, only the
first-seen survives `process_stories`.  Without the idempotence
hypothesis the claim is false (`c4_double_slash_counterexample`): the
duplicate check re-normalizes the stored link, and normalization is not
idempotent on multi-slash paths. -/
theorem c4_first_seen_wins (cfg : ProcCfg) (today : Int) (s1 s2 : Story)
    (l1 l2 : Str) (h1 : s1.link = some l1) (h2 : s2.link = some l2)
    (hidem : normalizeUrl (normalizeUrl l1) = normalizeUrl l1)
    (heq : normalizeUrl l1 = normalizeUrl l2)
    (hhl : s1.headline ≠ s2.headline)
    (hs1 : survives cfg today s1 = true)
    (hs2 : survives cfg today s2 = true) :
    processStories cfg today [s1, s2] = [enrichStory cfg s1] := by
  have hstep1 : step cfg today [] s1 = [enrichStory cfg s1] := by
    rw [step_eq, if_neg (by simp [isDup_nil]), if_pos hs1]
    simp
  have hstep2 : step cfg today [enrichStory cfg s1] s2 = [enrichStory cfg s1] := by
    rw [step_eq, if_pos ?hdup]
    case hdup =>
      rw [isDup_iff]
      left
      refine ⟨enrichStory cfg s1, by simp, ?_⟩
      rw [enrichStory_link, h1, h2]
      simp only [Option.map_some', Option.getD_some]
      rw [hidem, heq]
  unfold processStories
  rw [List.foldl_cons, List.foldl_cons, List.foldl_nil, hstep1, hstep2]
  rfl

/-- Witness for C4 (amended): the links `https://example.com/a` and
`https://example.com/a/` normalize to the same URL; only the first story
survives. -/
theorem c4_first_seen_wins_witness :
    processStories defaultProc exToday [wFixed1, wC4b] =
      [enrichStory defaultProc wFixed1] :=
  c4_first_seen_wins defaultProc exToday wFixed1 wC4b
    "https://example.com/a".toList "https://example.com/a/".toList
    rfl rfl (by decide) (by decide) (by decide) (by decide) (by decide)

/-- C4 counterexample: both stories carry the link
`https://example.com/story//`, whose normalizations are equal (trivially),
their headlines differ, and both pass every filter — yet *both* appear in
the output, because the duplicate check compares the candidate's
once-normalized link (`/story/`) against the stored link's second
normalization (`/story`). -/
theorem c4_double_slash_counterexample :
    normalizeUrl (c4a.link.getD []) = normalizeUrl (c4b.link.getD [])
    ∧ c4a.headline ≠ c4b.headline
    ∧ survives defaultProc exToday c4a = true
    ∧ survives defaultProc exToday c4b = true
    ∧ processStories defaultProc exToday [c4a, c4b] = [c4outA, c4outB] := by
  refine ⟨by decide, by decide, by decide, by decide, by decide⟩

/-! ## Idempotence (C5) -/

lemma isDup_single_of_sep (cfg : ProcCfg) (a s : Story)
    (hacf : cleanFixed cfg a) (hanf : normFixed a)
    (hsep : sepBoth cfg a s) :
    isDup cfg s [enrichStory cfg a] = false := by
  have henr : enrichStory cfg a = attachDomain a := enrich_of_fixed cfg a hacf hanf
  obtain ⟨v, hv, hvfix⟩ := normFixed_some a hanf
  rw [Bool.eq_false_iff, ne_eq, isDup_iff]
  push_neg
  constructor
  · intro e he
    rw [List.mem_singleton] at he
    subst he
    rw [henr, attachDomain_link, hv]
    simp only [Option.getD_some]
    rw [hvfix]
    have := hsep.1
    rw [hv] at this
    simpa [hvfix] using this
  · intro hne e he hene
    rw [List.mem_singleton] at he
    subst he
    rw [henr, attachDomain_headline]
    simpa using hsep.2.2

lemma isDup_append_false (cfg : ProcCfg) (s : Story) (m n : List Story)
    (hm : isDup cfg s m = false) (hn : isDup cfg s n = false) :
    isDup cfg s (m ++ n) = false := by
  rw [Bool.eq_false_iff, ne_eq, isDup_iff]
  rw [Bool.eq_false_iff, ne_eq, isDup_iff] at hm hn
  push_neg at hm hn ⊢
  constructor
  · intro e he
    rcases List.mem_append.mp he with h | h
    · exact hm.1 e h
    · exact hn.1 e h
  · intro hne e he hene
    rcases List.mem_append.mp he with h | h
    · exact hm.2 hne e h hene
    · exact hn.2 hne e h hene

lemma foldl_step_filterMap (cfg : ProcCfg) (today : Int) :
    ∀ (l acc : List Story),
      (∀ s ∈ l, cleanFixed cfg s ∧ normFixed s) →
      List.Pairwise (sepBoth cfg) l →
      (∀ s ∈ l, isDup cfg s acc = false) →
      l.foldl (step cfg today) acc =
        acc ++ (l.filter (survives cfg today)).map (enrichStory cfg) := by
  intro l
  induction l with
  | nil => intro acc _ _ _; simp
  | cons a l ih =>
    intro acc hfix hpair hdup
    rw [List.pairwise_cons] at hpair
    rw [List.foldl_cons, step_eq,
      if_neg (by simp [hdup a (List.mem_cons_self a l)])]
    by_cases hs : survives cfg today a = true
    · rw [if_pos hs]
      rw [ih (acc ++ [enrichStory cfg a])
        (fun s hsm => hfix s (List.mem_cons_of_mem a hsm)) hpair.2
        (fun s hsm =>
          isDup_append_false cfg s acc [enrichStory cfg a]
            (hdup s (List.mem_cons_of_mem a hsm))
            (isDup_single_of_sep cfg a s
              (hfix a (List.mem_cons_self a l)).1
              (hfix a (List.mem_cons_self a l)).2
              (hpair.1 s hsm)))]
      rw [List.filter_cons_of_pos hs, List.map_cons, List.append_assoc]
      rfl
    · rw [if_neg hs]
      rw [ih acc (fun s hsm => hfix s (List.mem_cons_of_mem a hsm)) hpair.2
        (fun s hsm => hdup s (List.mem_cons_of_mem a hsm))]
      rw [List.filter_cons_of_neg hs]

lemma survives_attachDomain (cfg : ProcCfg) (today : Int) (s : Story) :
    survives cfg today (attachDomain s) = survives cfg today s := by
  cases s with
  | mk hd lk dp sd =>
    cases lk with
    | none => rfl
    | some u =>
      cases hd <;> rfl

/-- C5 amended: `process_stories` is idempotent on inputs whose headlines
are fixed points of cleaning, whose links are fixed points of
normalization, and whose stories are pairwise non-duplicates in both
comparison directions — the second run returns the first run's output
unchanged.  Unconditional idempotence is false
(`c5_not_idempotent_counterexample`): a headline with a doubled
strippable prefix is cleaned further by the second pass. -/
theorem c5_idempotent_on_normalized (cfg : ProcCfg) (today : Int)
    (l : List Story) (hfix : ∀ s ∈ l, cleanFixed cfg s ∧ normFixed s)
    (hsep : List.Pairwise (sepBoth cfg) l) :
    processStories cfg today (processStories cfg today l) =
      processStories cfg today l := by
  have hrun1 : l.foldl (step cfg today) [] =
      (l.filter (survives cfg today)).map (enrichStory cfg) := by
    simpa using foldl_step_filterMap cfg today l [] hfix hsep
      (fun s _ => isDup_nil cfg s)
  have hmem : ∀ e ∈ (l.filter (survives cfg today)).map (enrichStory cfg),
      ∃ s, s ∈ l ∧ survives cfg today s = true ∧ e = enrichStory cfg s := by
    intro e he
    rw [List.mem_map] at he
    obtain ⟨s, hs, rfl⟩ := he
    rw [List.mem_filter] at hs
    exact ⟨s, hs.1, hs.2, rfl⟩
  have hfix1 : ∀ e ∈ (l.filter (survives cfg today)).map (enrichStory cfg),
      cleanFixed cfg e ∧ normFixed e := by
    intro e he
    obtain ⟨s, hsl, _, rfl⟩ := hmem e he
    obtain ⟨hcf, hnf⟩ := hfix s hsl
    rw [enrich_of_fixed cfg s hcf hnf]
    constructor
    · unfold cleanFixed at hcf ⊢
      rw [attachDomain_headline]
      exact hcf
    · unfold normFixed at hnf ⊢
      rw [attachDomain_link]
      exact hnf
  have hsep1 : List.Pairwise (sepBoth cfg)
      ((l.filter (survives cfg today)).map (enrichStory cfg)) := by
    rw [List.pairwise_map]
    have hsubl : List.Pairwise (sepBoth cfg) (l.filter (survives cfg today)) :=
      List.Pairwise.sublist (List.filter_sublist l) hsep
    refine List.Pairwise.imp_of_mem ?_ hsubl
    intro x y hx hy hxy
    obtain ⟨hxc, hxn⟩ := hfix x (List.mem_of_mem_filter hx)
    obtain ⟨hyc, hyn⟩ := hfix y (List.mem_of_mem_filter hy)
    unfold sepBoth at hxy ⊢
    rw [enrich_of_fixed cfg x hxc hxn, enrich_of_fixed cfg y hyc hyn,
      attachDomain_link, attachDomain_link, attachDomain_headline,
      attachDomain_headline]
    exact hxy
  have hperm := sortStories_perm today
    ((l.filter (survives cfg today)).map (enrichStory cfg))
  have hfix2 : ∀ e ∈ sortStories today
      ((l.filter (survives cfg today)).map (enrichStory cfg)),
      cleanFixed cfg e ∧ normFixed e :=
    fun e he => hfix1 e (hperm.mem_iff.mp he)
  have hsep2 : List.Pairwise (sepBoth cfg) (sortStories today
      ((l.filter (survives cfg today)).map (enrichStory cfg))) := by
    refine (hperm.pairwise_iff ?_).mpr hsep1
    intro a b hab
    exact ⟨hab.1.symm, hab.2.2, hab.2.1⟩
  have hsurv2 : ∀ e ∈ sortStories today
      ((l.filter (survives cfg today)).map (enrichStory cfg)),
      survives cfg today e = true := by
    intro e he
    obtain ⟨s, hsl, hss, rfl⟩ := hmem e (hperm.mem_iff.mp he)
    obtain ⟨hcf, hnf⟩ := hfix s hsl
    rw [enrich_of_fixed cfg s hcf hnf, survives_attachDomain]
    exact hss
  have henr2 : ∀ e ∈ sortStories today
      ((l.filter (survives cfg today)).map (enrichStory cfg)),
      enrichStory cfg e = e := by
    intro e he
    obtain ⟨s, hsl, hss, rfl⟩ := hmem e (hperm.mem_iff.mp he)
    obtain ⟨hcf, hnf⟩ := hfix s hsl
    have hef := hfix2 _ he
    rw [enrich_of_fixed cfg _ hef.1 hef.2]
    rw [enrich_of_fixed cfg s hcf hnf]
    exact attachDomain_idem s
  have hrun2 : (sortStories today
      ((l.filter (survives cfg today)).map (enrichStory cfg))).foldl
        (step cfg today) [] =
      sortStories today ((l.filter (survives cfg today)).map
        (enrichStory cfg)) := by
    have h := foldl_step_filterMap cfg today
      (sortStories today ((l.filter (survives cfg today)).map
        (enrichStory cfg))) [] hfix2 hsep2 (fun s _ => isDup_nil cfg s)
    rw [h, List.nil_append, List.filter_eq_self.mpr hsurv2]
    have hid : (sortStories today ((l.filter (survives cfg today)).map
        (enrichStory cfg))).map (enrichStory cfg) =
        (sortStories today ((l.filter (survives cfg today)).map
          (enrichStory cfg))).map id :=
      List.map_congr_left fun a ha => henr2 a ha
    rw [hid, List.map_id]
  unfold processStories
  rw [hrun1, hrun2]
  exact sortStories_of_sorted today _ (sortStories_sorted today _)

/-- Witness for C5 (amended) on a concrete already-normalized,
pairwise-dissimilar two-story input. -/
theorem c5_idempotent_witness :
    processStories defaultProc exToday
        (processStories defaultProc exToday [wFixed1, wFixed2]) =
      processStories defaultProc exToday [wFixed1, wFixed2] :=
  c5_idempotent_on_normalized defaultProc exToday [wFixed1, wFixed2]
    (by decide) (by decide)

/-- C5 counterexample: one pass of `process_stories` over a story headlined
`"Breaking: Breaking: ..."` strips one prefix; a second pass strips the
other, so `process(process(stories))` differs from `process(stories)`
already as a set of stories. -/
theorem c5_not_idempotent_counterexample :
    processStories defaultProc exToday [c5in] = [c5once]
    ∧ processStories defaultProc exToday [c5once] = [c5twice]
    ∧ c5once ≠ c5twice
    ∧ processStories defaultProc exToday
        (processStories defaultProc exToday [c5in]) ≠
      processStories defaultProc exToday [c5in] := by
  refine ⟨by decide, by decide, by decide, by decide⟩

end TrendFinder
